import Mathlib

/-!
# Verification of the git-changelists snapshot/changelist engine

A shallow embedding of the changelist engine of this repository
(src/ChangelistService.ts with helpers from src/utils.ts and the data
model of src/types.ts), together with proofs about its operations.

Modelling conventions:

* The working tree is a finite map from absolute path strings to file
  contents (an association list observed only through lookup).  The
  optional snapshot mirror directory (the .smartchangelists tree) is kept
  as a second map, matching its role as a side store for external tools.
* The external version-control primitives (git status/show/add/commit/
  stash/checkout/apply) and the generated-id source are collaborators the
  engine consumes, not code of this component; they are modelled as
  function fields of a GitEnv record, and fresh ids are passed as
  arguments.  A failing subprocess call is an Except.error carrying the
  subprocess message, which the engine surfaces unchanged, exactly as the
  TypeScript code rethrows the caught error object.
* JavaScript exceptions are modelled by returning the post-state paired
  with an optional error: `(s, some e)` is a throw observed by the caller
  with the service left in state `s` (mutations made before the throw are
  kept, as they are in the source).
* JavaScript truthiness of optional strings (`cl.repoPath || path`,
  `if (!shelvedFile.originalContent)`, `if (shelvedFile.patch)`) is
  modelled explicitly: `none` and `some ""` are falsy.
-/

namespace GitChangelists

/-- Git file status values, from src/types.ts (GitFileStatus). -/
inductive GitFileStatus where
  | modified
  | added
  | deleted
  | renamed
  | copied
  | untracked
  | ignored
  | conflicted
deriving DecidableEq, Repr

/-- A shelved file (snapshot), from src/types.ts (ShelvedFile). -/
structure ShelvedFile where
  relativePath : String
  status : GitFileStatus
  patch : String
  originalContent : Option String
  headContent : Option String
  shelvedAt : Nat
  originalPath : Option String
  repoPath : Option String
deriving DecidableEq, Repr

/-- A changelist, from src/types.ts (Changelist). -/
structure Changelist where
  id : String
  label : String
  shelvedFiles : List ShelvedFile
  isDefault : Bool
  isActive : Bool
  repoPath : Option String
deriving DecidableEq, Repr

/-- The persisted state record, from src/types.ts (ChangelistState). -/
structure ChangelistState where
  changelists : List Changelist
  activeChangelistId : String
  version : Nat
deriving DecidableEq, Repr

/-- One entry of the git status map, from src/types.ts (ChangedFile). -/
structure ChangedFile where
  absolutePath : String
  relativePath : String
  status : GitFileStatus
  originalPath : Option String
  repoPath : Option String
deriving DecidableEq, Repr

/-- One item of the export format, from src/types.ts (ChangelistExport). -/
structure ExportItem where
  label : String
  shelvedFiles : List ShelvedFile
deriving DecidableEq, Repr

/-- The export/import payload, from src/types.ts (ChangelistExport). -/
structure ChangelistExport where
  version : Nat
  changelists : List ExportItem
  exportedAt : String
deriving DecidableEq, Repr

/-- Errors thrown by the service.  Each constructor corresponds to one
`throw new Error(...)` site in src/ChangelistService.ts, except
`gitFailure` and `ioFailure`, which carry a message from a failing
version-control subprocess call or file-system primitive that the engine
rethrows unchanged. -/
inductive Err where
  | changelistNotFound (id : String)
  | fileNotFoundInChanges (p : String)
  | fileNotFoundInChangelist (p : String)
  | fileNotFound (p : String)
  | cannotDeleteDefault
  | cannotSaveToDefault
  | defaultChangelistNotFound
  | noShelvedFilesToCommit
  | noFilesToCommit
  | noFilesInChangelist
  | gitFailure (msg : String)
  | ioFailure (msg : String)
deriving DecidableEq, Repr

/-- A finite map as an association list, observed only through lookup. -/
abbrev FsMap := List (String × String)

/-- Lookup in an association list keyed by strings. -/
def lookupA {α : Type} : List (String × α) → String → Option α
  | [], _ => none
  | (k, v) :: rest, key => if k == key then some v else lookupA rest key

/-- Lookup in the working-tree map (existsSync plus readFileSync). -/
def fsGet (m : FsMap) (k : String) : Option String := lookupA m k

/-- Remove a path from the working-tree map (unlinkSync, tolerating
absence where the source guards with existsSync). -/
def fsErase : FsMap → String → FsMap
  | [], _ => []
  | e :: rest, k => if e.1 == k then fsErase rest k else e :: fsErase rest k

/-- Write a path in the working-tree map (writeFileSync). -/
def fsSet (m : FsMap) (k v : String) : FsMap :=
  (k, v) :: fsErase m k

/-- Per-character path-separator normalization, from normalizePath in
src/utils.ts: replace(/\\/g, "/"). -/
def normChar (c : Char) : Char := if c = '\\' then '/' else c

/-- normalizePath from src/utils.ts. -/
def normalizePath (filePath : String) : String :=
  ⟨filePath.data.map normChar⟩

/-- getAbsolutePathFromRepo from src/utils.ts: path.join of the
repository root and a repo-relative path. -/
def getAbsolutePathFromRepo (relativePath repoPath : String) : String :=
  repoPath ++ "/" ++ relativePath

/-- JavaScript `a || b` on an optional string: none and the empty string
are falsy. -/
def jsOr (o : Option String) (d : String) : String :=
  match o with
  | none => d
  | some s => if s = "" then d else s

/-- JavaScript truthiness of an optional string. -/
def jsTruthy : Option String → Bool
  | none => false
  | some s => s != ""

/-- Per-character sanitization of a changelist label for folder use, from
getSnapshotFilePath: replace(/[<>:"/\\|?*]/g, "_"). -/
def sanitizeChar (c : Char) : Char :=
  if c = '<' ∨ c = '>' ∨ c = ':' ∨ c = '"' ∨ c = '/' ∨ c = '\\' ∨
      c = '|' ∨ c = '?' ∨ c = '*' then '_' else c

/-- Label sanitization used for the snapshot mirror folder. -/
def sanitizeLabel (label : String) : String :=
  ⟨label.data.map sanitizeChar⟩

/-- Last path component (path.basename) of a slash-separated path. -/
def basename (p : String) : String :=
  (p.splitOn "/").getLastD p

/-- The snapshots directory name (SNAPSHOTS_DIR). -/
def SNAPSHOTS_DIR : String := ".smartchangelists"

/-- The current schema version (STATE_VERSION). -/
def STATE_VERSION : Nat := 4

/-- The external version-control collaborator (simple-git in the source).
Spec section 6 lists these as interfaces the core consumes but does not
implement; each is a function of the current working tree, and a failure
of the underlying subprocess is an Except.error with its message. -/
structure GitEnv where
  /-- git show HEAD:path; none models the call throwing (no such file at
  HEAD), which shelveFile catches. -/
  showHead : String → Option String
  /-- git apply of a legacy patch against the working tree. -/
  applyPatch : String → FsMap → Except String FsMap
  /-- git stash push: returns the working tree after stashing. -/
  stashPush : FsMap → Except String FsMap
  /-- git stash pop: returns the working tree after popping. -/
  stashPop : FsMap → Except String FsMap
  /-- git add of a list of paths. -/
  gitAdd : List String → FsMap → Except String Unit
  /-- git commit with a message. -/
  gitCommit : String → FsMap → Except String Unit
  /-- git status, recomputing the changed-files map from the tree. -/
  statusOf : FsMap → Except String (List (String × ChangedFile))
  /-- git checkout of one path. -/
  checkoutFile : String → FsMap → Except String FsMap

/-- The full observable state of one ChangelistService instance: its
in-memory state, the changed-files map, the repository working tree and
snapshot mirror, the persisted record, fired-notification counters, the
saveSnapshotsToFile configuration flag, and the git collaborator. -/
structure Svc where
  repoPath : String
  state : ChangelistState
  changed : List (String × ChangedFile)
  fs : FsMap
  mirror : FsMap
  persisted : Option ChangelistState
  clEvents : Nat
  fileEvents : Nat
  cfgSaveSnapshotsToFile : Bool
  git : GitEnv

/-- Replace the first element satisfying the predicate; identity when no
element matches.  Models an in-place mutation of the object returned by a
find over an array. -/
def updateFirst {α : Type} (p : α → Bool) (f : α → α) : List α → List α
  | [] => []
  | x :: xs => if p x then f x :: xs else x :: updateFirst p f xs

/-- getChangelist from src/ChangelistService.ts: first changelist with
the given id. -/
def getChangelist (st : ChangelistState) (id : String) : Option Changelist :=
  st.changelists.find? (fun cl => cl.id == id)

/-- The freshly-initialized state created by loadState when nothing is
stored: one default changelist, active, stamped with the repository. -/
def defaultState (freshId repoPath : String) : ChangelistState :=
  { version := STATE_VERSION
    activeChangelistId := freshId
    changelists :=
      [{ id := freshId
         label := "Default Changelist"
         shelvedFiles := []
         isDefault := true
         isActive := true
         repoPath := some repoPath }] }

/-- upgradeState from src/ChangelistService.ts: stamp every changelist
and shelved file with the repository path when missing (JavaScript ||,
so the empty string also counts as missing) and bump the version. -/
def upgradeState (repoPath : String) (oldState : ChangelistState) : ChangelistState :=
  { version := STATE_VERSION
    activeChangelistId := oldState.activeChangelistId
    changelists := oldState.changelists.map fun cl =>
      { cl with
        repoPath := some (jsOr cl.repoPath repoPath)
        shelvedFiles := cl.shelvedFiles.map fun sf =>
          { sf with repoPath := some (jsOr sf.repoPath repoPath) } } }

/-- tryMigrateLegacyState from src/ChangelistService.ts: only applicable
when a legacy record exists and this repository is the workspace root;
stamps every changelist and shelved file with the repository path. -/
def tryMigrateLegacyState (legacy : Option ChangelistState)
    (workspaceRoot : Option String) (repoPath : String) : Option ChangelistState :=
  match legacy with
  | none => none
  | some legacyState =>
    match workspaceRoot with
    | none => none
    | some root =>
      if normalizePath repoPath ≠ normalizePath root then none
      else
        some
          { version := STATE_VERSION
            activeChangelistId := legacyState.activeChangelistId
            changelists := legacyState.changelists.map fun cl =>
              { cl with
                repoPath := some repoPath
                shelvedFiles := cl.shelvedFiles.map fun sf =>
                  { sf with repoPath := some repoPath } } }

/-- The inputs loadState consults: the record stored under this
repository's key, the legacy single-repo record, the workspace root, and
the id generateId would produce for a fresh default changelist. -/
structure LoadEnv where
  stored : Option ChangelistState
  legacy : Option ChangelistState
  workspaceRoot : Option String
  freshId : String
deriving Repr

/-- loadState from src/ChangelistService.ts: current record returned
unchanged; else legacy migration; else same-repository upgrade of an
older version; else a fresh default state. -/
def loadState (env : LoadEnv) (repoPath : String) : ChangelistState :=
  match env.stored with
  | some stored =>
    if stored.version = STATE_VERSION then stored
    else
      match tryMigrateLegacyState env.legacy env.workspaceRoot repoPath with
      | some migrated => migrated
      | none =>
        if stored.version < STATE_VERSION then upgradeState repoPath stored
        else defaultState env.freshId repoPath
  | none =>
    match tryMigrateLegacyState env.legacy env.workspaceRoot repoPath with
    | some migrated => migrated
    | none => defaultState env.freshId repoPath

/-- saveState: persist the in-memory state wholesale under this
repository's key. -/
def saveState (s : Svc) : Svc :=
  { s with persisted := some s.state }

/-- Fire the onDidChangeChangelists event (counted). -/
def fireChangelists (s : Svc) : Svc :=
  { s with clEvents := s.clEvents + 1 }

/-- refresh: recompute the changed-files map from git status and fire
onDidChangeFiles; a status failure is caught and logged, leaving the map
untouched. -/
def refresh (s : Svc) : Svc :=
  match s.git.statusOf s.fs with
  | .ok status => { s with changed := status, fileEvents := s.fileEvents + 1 }
  | .error _ => s

/-- getSnapshotFilePath: the mirror file for one snapshot, at
repo/.smartchangelists/sanitized-label/basename. -/
def getSnapshotFilePath (repoPath : String) (sf : ShelvedFile)
    (cl : Changelist) : String :=
  repoPath ++ "/" ++ SNAPSHOTS_DIR ++ "/" ++ sanitizeLabel cl.label ++ "/" ++
    basename sf.relativePath

/-- saveSnapshotToFile: mirror the captured content for external tools;
skipped when the feature is off or the snapshot has no truthy content.
Its own failures are caught and logged, so it never throws. -/
def saveSnapshotToFile (s : Svc) (sf : ShelvedFile) (cl : Changelist) : Svc :=
  if !s.cfgSaveSnapshotsToFile then s
  else if !jsTruthy sf.originalContent then s
  else
    match sf.originalContent with
    | none => s
    | some content =>
      { s with mirror := fsSet s.mirror (getSnapshotFilePath s.repoPath sf cl) content }

/-- deleteSnapshotFile: remove the mirror file of a snapshot; skipped
when the feature is off, tolerant of absence, never throws. -/
def deleteSnapshotFile (s : Svc) (sf : ShelvedFile) (cl : Changelist) : Svc :=
  if !s.cfgSaveSnapshotsToFile then s
  else { s with mirror := fsErase s.mirror (getSnapshotFilePath s.repoPath sf cl) }

/-- The snapshot record shelveFile builds: the working content is
captured verbatim (absent for a deleted file, or when the file does not
exist), the HEAD content is fetched best-effort for tracked files, and
the patch field is left empty (full-content capture). -/
def capturedSnapshot (s : Svc) (file : ChangedFile) (normalizedPath : String)
    (now : Nat) : ShelvedFile :=
  { relativePath := normalizedPath
    status := file.status
    patch := ""
    originalContent :=
      if file.status = .deleted then none
      else fsGet s.fs (getAbsolutePathFromRepo normalizedPath s.repoPath)
    headContent :=
      if file.status ≠ .untracked then s.git.showHead normalizedPath
      else none
    shelvedAt := now
    originalPath := file.originalPath
    repoPath := some s.repoPath }

/-- The replace-on-recapture rule of shelveFile: when a snapshot for the
same normalized path already exists (findIndex succeeds), it is replaced
in place; otherwise the new snapshot is appended. -/
def replaceOrAppend (files : List ShelvedFile) (normalizedPath : String)
    (snap : ShelvedFile) : List ShelvedFile :=
  if (files.find? (fun f => normalizePath f.relativePath == normalizedPath)).isSome
  then
    updateFirst (fun f => normalizePath f.relativePath == normalizedPath)
      (fun _ => snap) files
  else files ++ [snap]

/-- shelveFile from src/ChangelistService.ts: capture the full current
content of a changed file into a non-default changelist, replacing any
prior snapshot for the same normalized path, mirroring the snapshot,
persisting, and firing the changelists event.  The working tree is not
written.  `now` stands for Date.now(). -/
def shelveFile (s : Svc) (relativePath targetChangelistId : String)
    (now : Nat) : Svc × Option Err :=
  let normalizedPath := normalizePath relativePath
  match lookupA s.changed normalizedPath with
  | none => (s, some (.fileNotFoundInChanges relativePath))
  | some file =>
    match getChangelist s.state targetChangelistId with
    | none => (s, some (.changelistNotFound targetChangelistId))
    | some changelist =>
      if changelist.isDefault then (s, some .cannotSaveToDefault)
      else
        let shelvedFile := capturedSnapshot s file normalizedPath now
        let newCl :=
          { changelist with
            shelvedFiles :=
              replaceOrAppend changelist.shelvedFiles normalizedPath shelvedFile }
        let s1 :=
          { s with
            state :=
              { s.state with
                changelists :=
                  updateFirst (fun cl => cl.id == targetChangelistId)
                    (fun _ => newCl) s.state.changelists } }
        let s2 := saveSnapshotToFile s1 shelvedFile newCl
        (fireChangelists (saveState s2), none)

/-- unshelveFileInternal from src/ChangelistService.ts: restore one
snapshot to the working tree.  Deletion snapshots delete the file;
content snapshots overwrite it; legacy snapshots with a truthy patch and
no content replay git apply; a snapshot with neither is a no-op. -/
def unshelveFileInternal (s : Svc) (sf : ShelvedFile) : Svc × Option Err :=
  let repoPath := jsOr sf.repoPath s.repoPath
  let absolutePath := getAbsolutePathFromRepo sf.relativePath repoPath
  if sf.status = .deleted then
    ({ s with fs := fsErase s.fs absolutePath }, none)
  else
    match sf.originalContent with
    | some content => ({ s with fs := fsSet s.fs absolutePath content }, none)
    | none =>
      if sf.patch != "" then
        match s.git.applyPatch sf.patch s.fs with
        | .ok fs' => ({ s with fs := fs' }, none)
        | .error msg => (s, some (.gitFailure msg))
      else (s, none)

/-- unshelveFile from src/ChangelistService.ts: restore one snapshot by
changelist id and path; the snapshot is kept; on success the service
refreshes and fires the changelists event. -/
def unshelveFile (s : Svc) (changelistId relativePath : String) : Svc × Option Err :=
  match getChangelist s.state changelistId with
  | none => (s, some (.changelistNotFound changelistId))
  | some changelist =>
    let normalizedPath := normalizePath relativePath
    match changelist.shelvedFiles.find?
        (fun f => normalizePath f.relativePath == normalizedPath) with
    | none => (s, some (.fileNotFoundInChangelist relativePath))
    | some sf =>
      match unshelveFileInternal s sf with
      | (s1, some e) => (s1, some e)
      | (s1, none) => (fireChangelists (refresh s1), none)

/-- The unshelve loop shared by deleteChangelist, applyAllAndStage,
unshelveAll, and commitChangelist: restore snapshots in order, stopping
at the first failure (the loop body awaits each restore and a throw
propagates). -/
def unshelveAllInternal (s : Svc) : List ShelvedFile → Svc × Option Err
  | [] => (s, none)
  | sf :: rest =>
    match unshelveFileInternal s sf with
    | (s1, some e) => (s1, some e)
    | (s1, none) => unshelveAllInternal s1 rest

/-- unshelveAll from src/ChangelistService.ts: restore every snapshot of
a changelist; snapshots are kept. -/
def unshelveAll (s : Svc) (changelistId : String) : Svc × Option Err :=
  match getChangelist s.state changelistId with
  | none => (s, some (.changelistNotFound changelistId))
  | some changelist =>
    match unshelveAllInternal s changelist.shelvedFiles with
    | (s1, some e) => (s1, some e)
    | (s1, none) => (fireChangelists (refresh s1), none)

/-- applyAndStage from src/ChangelistService.ts: restore one snapshot
and git add its path. -/
def applyAndStage (s : Svc) (changelistId relativePath : String) : Svc × Option Err :=
  match getChangelist s.state changelistId with
  | none => (s, some (.changelistNotFound changelistId))
  | some changelist =>
    let normalizedPath := normalizePath relativePath
    match changelist.shelvedFiles.find?
        (fun f => normalizePath f.relativePath == normalizedPath) with
    | none => (s, some (.fileNotFoundInChangelist relativePath))
    | some sf =>
      match unshelveFileInternal s sf with
      | (s1, some e) => (s1, some e)
      | (s1, none) =>
        match s1.git.gitAdd [normalizedPath] s1.fs with
        | .error msg => (s1, some (.gitFailure msg))
        | .ok _ => (fireChangelists (refresh s1), none)

/-- applyAllAndStage from src/ChangelistService.ts: restore every
snapshot of a non-empty changelist, then git add all their paths. -/
def applyAllAndStage (s : Svc) (changelistId : String) : Svc × Option Err :=
  match getChangelist s.state changelistId with
  | none => (s, some (.changelistNotFound changelistId))
  | some changelist =>
    if changelist.shelvedFiles.isEmpty then (s, some .noFilesInChangelist)
    else
      match unshelveAllInternal s changelist.shelvedFiles with
      | (s1, some e) => (s1, some e)
      | (s1, none) =>
        match s1.git.gitAdd (changelist.shelvedFiles.map (·.relativePath)) s1.fs with
        | .error msg => (s1, some (.gitFailure msg))
        | .ok _ => (fireChangelists (refresh s1), none)

/-- createChangelist from src/ChangelistService.ts: append a fresh,
non-default, non-active, empty changelist; persist and fire.  `freshId`
stands for the value of generateId().  Returns the created changelist
alongside the new service state (the source returns it to callers such
as importChangelists, which then mutate it through the reference). -/
def createChangelist (s : Svc) (label freshId : String) : Svc × Changelist :=
  let changelist : Changelist :=
    { id := freshId
      label := label
      shelvedFiles := []
      isDefault := false
      isActive := false
      repoPath := some s.repoPath }
  let s1 :=
    { s with
      state := { s.state with changelists := s.state.changelists ++ [changelist] } }
  (fireChangelists (saveState s1), changelist)

/-- renameChangelist from src/ChangelistService.ts. -/
def renameChangelist (s : Svc) (id newLabel : String) : Svc × Option Err :=
  match getChangelist s.state id with
  | none => (s, some (.changelistNotFound id))
  | some _ =>
    let s1 :=
      { s with
        state :=
          { s.state with
            changelists :=
              updateFirst (fun cl => cl.id == id)
                (fun cl => { cl with label := newLabel }) s.state.changelists } }
    (fireChangelists (saveState s1), none)

/-- deleteChangelist from src/ChangelistService.ts: refuse the default
changelist; otherwise unshelve every snapshot back to the working tree,
then drop the record, transferring activity to the default changelist
when the deleted one was active; persist, refresh, fire. -/
def deleteChangelist (s : Svc) (id : String) : Svc × Option Err :=
  match getChangelist s.state id with
  | none => (s, some (.changelistNotFound id))
  | some changelist =>
    if changelist.isDefault then (s, some .cannotDeleteDefault)
    else
      match unshelveAllInternal s changelist.shelvedFiles with
      | (s1, some e) => (s1, some e)
      | (s1, none) =>
        let s2 :=
          { s1 with
            state :=
              { s1.state with
                changelists := s1.state.changelists.filter (fun cl => cl.id != id) } }
        if changelist.isActive then
          match s2.state.changelists.find? (·.isDefault) with
          | none => (s2, some .defaultChangelistNotFound)
          | some defaultCl =>
            let s3 :=
              { s2 with
                state :=
                  { s2.state with
                    changelists :=
                      updateFirst (·.isDefault)
                        (fun cl => { cl with isActive := true })
                        s2.state.changelists
                    activeChangelistId := defaultCl.id } }
            (fireChangelists (refresh (saveState s3)), none)
        else (fireChangelists (refresh (saveState s2)), none)

/-- setActiveChangelist from src/ChangelistService.ts: clear the active
flag on every changelist, then set it on the first changelist with the
given id; record the active id; persist and fire. -/
def setActiveChangelist (s : Svc) (id : String) : Svc × Option Err :=
  match getChangelist s.state id with
  | none => (s, some (.changelistNotFound id))
  | some _ =>
    let cleared := s.state.changelists.map (fun cl => { cl with isActive := false })
    let s1 :=
      { s with
        state :=
          { s.state with
            changelists :=
              updateFirst (fun cl => cl.id == id)
                (fun cl => { cl with isActive := true }) cleared
            activeChangelistId := id } }
    (fireChangelists (saveState s1), none)

/-- deleteShelvedFile from src/ChangelistService.ts: discard the
snapshot for one normalized path (and its mirror file) without
restoring; filters by path whether or not a snapshot exists, then
persists and fires. -/
def deleteShelvedFile (s : Svc) (changelistId relativePath : String) : Svc × Option Err :=
  match getChangelist s.state changelistId with
  | none => (s, some (.changelistNotFound changelistId))
  | some changelist =>
    let normalizedPath := normalizePath relativePath
    let s1 :=
      match changelist.shelvedFiles.find?
          (fun f => normalizePath f.relativePath == normalizedPath) with
      | some sf => deleteSnapshotFile s sf changelist
      | none => s
    let s2 :=
      { s1 with
        state :=
          { s1.state with
            changelists :=
              updateFirst (fun cl => cl.id == changelistId)
                (fun cl =>
                  { cl with
                    shelvedFiles :=
                      cl.shelvedFiles.filter
                        (fun f => normalizePath f.relativePath != normalizedPath) })
                s1.state.changelists } }
    (fireChangelists (saveState s2), none)

/-- commitWorkingChanges from src/ChangelistService.ts: stage every
currently changed file and commit. -/
def commitWorkingChanges (s : Svc) (message : String) : Svc × Option Err :=
  let files := s.changed.map (·.2)
  if files.isEmpty then (s, some .noFilesToCommit)
  else
    match s.git.gitAdd (files.map (·.relativePath)) s.fs with
    | .error msg => (s, some (.gitFailure msg))
    | .ok _ =>
      match s.git.gitCommit message s.fs with
      | .error msg => (s, some (.gitFailure msg))
      | .ok _ => (refresh s, none)

/-- Step 1 of the non-default commit protocol: stash the working changes
when there are any (git stash push with the recognizable label). -/
def stashPushIf (s : Svc) (hasWorkingChanges : Bool) : Svc × Option Err :=
  if hasWorkingChanges then
    match s.git.stashPush s.fs with
    | .ok fs' => ({ s with fs := fs' }, none)
    | .error msg => (s, some (.gitFailure msg))
  else (s, none)

/-- Step 5 of the non-default commit protocol: pop the stash when one
was pushed in step 1. -/
def stashPopIf (s : Svc) (hasWorkingChanges : Bool) : Svc × Option Err :=
  if hasWorkingChanges then
    match s.git.stashPop s.fs with
    | .ok fs' => ({ s with fs := fs' }, none)
    | .error msg => (s, some (.gitFailure msg))
  else (s, none)

/-- commitChangelist from src/ChangelistService.ts: the default
changelist delegates to commitWorkingChanges; a non-default, non-empty
changelist is committed by stashing any working changes, unshelving the
shelf, staging and committing it, clearing the shelf, and popping the
stash.  Any failure is rethrown unchanged, including a stash-pop failure
after the shelf has already been cleared in memory. -/
def commitChangelist (s : Svc) (changelistId message : String) : Svc × Option Err :=
  match getChangelist s.state changelistId with
  | none => (s, some (.changelistNotFound changelistId))
  | some changelist =>
    if changelist.isDefault then commitWorkingChanges s message
    else if changelist.shelvedFiles.isEmpty then (s, some .noShelvedFilesToCommit)
    else
      let hasWorkingChanges := decide (s.changed.length > 0)
      match stashPushIf s hasWorkingChanges with
      | (s1, some e) => (s1, some e)
      | (s1, none) =>
        match unshelveAllInternal s1 changelist.shelvedFiles with
        | (s2, some e) => (s2, some e)
        | (s2, none) =>
          match s2.git.gitAdd (changelist.shelvedFiles.map (·.relativePath)) s2.fs with
          | .error msg => (s2, some (.gitFailure msg))
          | .ok _ =>
            match s2.git.gitCommit message s2.fs with
            | .error msg => (s2, some (.gitFailure msg))
            | .ok _ =>
              let s3 :=
                { s2 with
                  state :=
                    { s2.state with
                      changelists :=
                        updateFirst (fun cl => cl.id == changelistId)
                          (fun cl => { cl with shelvedFiles := [] })
                          s2.state.changelists } }
              match stashPopIf s3 hasWorkingChanges with
              | (s4, some e) => (s4, some e)
              | (s4, none) => (fireChangelists (refresh (saveState s4)), none)

/-- revertFile from src/ChangelistService.ts: untracked files are
unlinked (throwing when absent, as unlinkSync does without a guard);
tracked files are checked out from git. -/
def revertFile (s : Svc) (relativePath : String) : Svc × Option Err :=
  let normalizedPath := normalizePath relativePath
  match lookupA s.changed normalizedPath with
  | none => (s, some (.fileNotFound relativePath))
  | some file =>
    if file.status = .untracked then
      let absolutePath := getAbsolutePathFromRepo normalizedPath s.repoPath
      match fsGet s.fs absolutePath with
      | none => (s, some (.ioFailure "ENOENT"))
      | some _ => (refresh { s with fs := fsErase s.fs absolutePath }, none)
    else
      match s.git.checkoutFile normalizedPath s.fs with
      | .error msg => (s, some (.gitFailure msg))
      | .ok fs' => (refresh { s with fs := fs' }, none)

/-- The loop body of importChangelists: items with a truthy label are
re-created as fresh changelists and their snapshot arrays attached
verbatim (through the reference returned by createChangelist); one fresh
id is consumed per created changelist.  Returns the import count. -/
def importLoop (s : Svc) : List ExportItem → List String → Svc × Nat
  | [], _ => (s, 0)
  | item :: rest, freshIds =>
    if item.label != "" then
      let freshId := freshIds.headD ""
      let created := createChangelist s item.label freshId
      let s2 :=
        { created.1 with
          state :=
            { created.1.state with
              changelists :=
                updateFirst (fun cl => cl.id == created.2.id)
                  (fun cl => { cl with shelvedFiles := item.shelvedFiles })
                  created.1.state.changelists } }
      let r := importLoop s2 rest freshIds.tail
      (r.1, r.2 + 1)
    else
      importLoop s rest freshIds

/-- importChangelists from src/ChangelistService.ts: re-create each
exported changelist by label and reattach its snapshot array verbatim;
persist and fire once more at the end.  (The Array.isArray guards of the
source are statically satisfied in this typed model.) -/
def importChangelists (s : Svc) (data : ChangelistExport)
    (freshIds : List String) : Svc × Nat :=
  let r := importLoop s data.changelists freshIds
  (fireChangelists (saveState r.1), r.2)

/-- A service instance as the constructor leaves it for a fresh
repository: the freshly-initialized default state (already persisted by
loadState), an empty changed-files map, and, when the mirror feature is
on, the snapshots directory marker file. -/
def initSvc (repoPath freshId : String) (fs0 : FsMap) (git : GitEnv)
    (cfg : Bool) : Svc :=
  { repoPath := repoPath
    state := defaultState freshId repoPath
    changed := []
    fs := fs0
    mirror :=
      if cfg then
        [(repoPath ++ "/" ++ SNAPSHOTS_DIR ++ "/.gitignore", "*\n!.gitignore\n")]
      else []
    persisted := some (defaultState freshId repoPath)
    clEvents := 0
    fileEvents := 0
    cfgSaveSnapshotsToFile := cfg
    git := git }

/-- One caller-visible operation of the engine or registry.  The post
state of a step is the service state after the call, whether it returned
normally or threw (a throw keeps the mutations made before it, as in the
source).  Fresh ids handed to create and import carry the uniqueness
that generateId provides. -/
inductive Step : Svc → Svc → Prop
  | create (s : Svc) (label freshId : String)
      (hfresh : ∀ cl ∈ s.state.changelists, cl.id ≠ freshId) :
      Step s (createChangelist s label freshId).1
  | rename (s : Svc) (id newLabel : String) :
      Step s (renameChangelist s id newLabel).1
  | delete (s : Svc) (id : String) :
      Step s (deleteChangelist s id).1
  | setActive (s : Svc) (id : String) :
      Step s (setActiveChangelist s id).1
  | shelve (s : Svc) (p cid : String) (now : Nat) :
      Step s (shelveFile s p cid now).1
  | unshelve (s : Svc) (cid p : String) :
      Step s (unshelveFile s cid p).1
  | unshelveAllStep (s : Svc) (cid : String) :
      Step s (unshelveAll s cid).1
  | applyStage (s : Svc) (cid p : String) :
      Step s (applyAndStage s cid p).1
  | applyAllStage (s : Svc) (cid : String) :
      Step s (applyAllAndStage s cid).1
  | discardShelved (s : Svc) (cid p : String) :
      Step s (deleteShelvedFile s cid p).1
  | commitWorking (s : Svc) (message : String) :
      Step s (commitWorkingChanges s message).1
  | commit (s : Svc) (cid message : String) :
      Step s (commitChangelist s cid message).1
  | importStep (s : Svc) (data : ChangelistExport) (freshIds : List String)
      (hnodup : freshIds.Nodup)
      (hfresh : ∀ id ∈ freshIds, ∀ cl ∈ s.state.changelists, cl.id ≠ id)
      (hlen : data.changelists.length ≤ freshIds.length) :
      Step s (importChangelists s data freshIds).1
  | revert (s : Svc) (p : String) :
      Step s (revertFile s p).1
  | refreshStep (s : Svc) :
      Step s (refresh s)

/-- States reachable from a given state by engine and registry
operations. -/
inductive Reachable (s0 : Svc) : Svc → Prop
  | refl : Reachable s0 s0
  | step {s s' : Svc} : Reachable s0 s → Step s s' → Reachable s0 s'

/-- The footprint of the internal restore helpers: the result differs
from the input at most in the working tree. -/
def FsOnly (s s' : Svc) : Prop := ∃ fs', s' = { s with fs := fs' }

/-- The registry invariants of one repository's changelist list: exactly
one default changelist, at most one active changelist, and pairwise
distinct ids (generateId is a unique-id source). -/
def InvL (l : List Changelist) : Prop :=
  l.countP (·.isDefault) = 1 ∧ l.countP (·.isActive) ≤ 1 ∧
    (l.map (·.id)).Nodup

/-- The registry invariants of a persisted state record. -/
def Inv (st : ChangelistState) : Prop := InvL st.changelists

/-- The absolute path the internal unshelve helper writes. -/
def absKey (repo : String) (sf : ShelvedFile) : String :=
  getAbsolutePathFromRepo sf.relativePath (jsOr sf.repoPath repo)

/-- The working tree after restoring one snapshot of the content or
deletion kind. -/
def restoredFs (fs : FsMap) (repo : String) (sf : ShelvedFile) : FsMap :=
  if sf.status = .deleted then fsErase fs (absKey repo sf)
  else
    match sf.originalContent with
    | some c => fsSet fs (absKey repo sf) c
    | none => fs


/-- The per-changelist snapshot invariant of the spec: within one
changelist, at most one snapshot exists per normalized relative path. -/
def pathUnique (cl : Changelist) : Prop :=
  (cl.shelvedFiles.map fun f => normalizePath f.relativePath).Nodup

/-- The snapshot invariant over a whole state record. -/
def statePathUnique (st : ChangelistState) : Prop :=
  ∀ cl ∈ st.changelists, pathUnique cl

/-! ## Concrete fixtures for evaluating the operations -/

/-- A benign git collaborator for concrete runs: show finds nothing at
HEAD, patch application is the identity, stash and checkout leave the
tree unchanged, add and commit succeed, status reports no changes. -/
def gitEnv0 : GitEnv :=
  { showHead := fun _ => none
    applyPatch := fun _ fs => .ok fs
    stashPush := fun fs => .ok fs
    stashPop := fun fs => .ok fs
    gitAdd := fun _ _ => .ok ()
    gitCommit := fun _ _ => .ok ()
    statusOf := fun _ => .ok []
    checkoutFile := fun _ fs => .ok fs }

/-- A git collaborator whose stash pop fails (for example because the
stashed changes conflict with the freshly committed shelf). -/
def gitEnvPopFail : GitEnv :=
  { gitEnv0 with stashPop := fun _ => .error "boom" }

/-- A git collaborator whose commit fails outright: an ordinary
subprocess failure with the same message. -/
def gitEnvCommitFail : GitEnv :=
  { gitEnv0 with gitCommit := fun _ _ => .error "boom" }

/-- A git collaborator whose patch application appends a marker to the
target file: replaying the same patch twice yields different content,
exactly like a real git apply of an additive diff. -/
def gitEnvAppend : GitEnv :=
  { gitEnv0 with
    applyPatch := fun _ fs =>
      .ok (fsSet fs "/r/a.txt" (((fsGet fs "/r/a.txt").getD "") ++ "+")) }

/-- A modified changed file at path a.txt of the concrete repository. -/
def file0 : ChangedFile :=
  { absolutePath := "/r/a.txt"
    relativePath := "a.txt"
    status := .modified
    originalPath := none
    repoPath := some "/r" }

/-- The default changelist of the concrete repository. -/
def defaultCl0 : Changelist :=
  { id := "d0"
    label := "Default Changelist"
    shelvedFiles := []
    isDefault := true
    isActive := true
    repoPath := some "/r" }

/-- An empty non-default changelist of the concrete repository. -/
def cl0 : Changelist :=
  { id := "c1"
    label := "Feature"
    shelvedFiles := []
    isDefault := false
    isActive := false
    repoPath := some "/r" }

/-- A full-content snapshot of a.txt as shelveFile captures it. -/
def snap1 : ShelvedFile :=
  { relativePath := "a.txt"
    status := .modified
    patch := ""
    originalContent := some "v1"
    headContent := none
    shelvedAt := 1
    originalPath := none
    repoPath := some "/r" }

/-- A legacy snapshot predating full-content capture: no captured
content, only a stored patch. -/
def legacySnap : ShelvedFile :=
  { relativePath := "a.txt"
    status := .modified
    patch := "P"
    originalContent := none
    headContent := none
    shelvedAt := 1
    originalPath := none
    repoPath := some "/r" }

/-- A concrete service: one repository at /r with one modified file
a.txt of content v1, the default changelist, and one empty non-default
changelist c1. -/
def svc0 : Svc :=
  { repoPath := "/r"
    state :=
      { changelists := [defaultCl0, cl0]
        activeChangelistId := "d0"
        version := 4 }
    changed := [("a.txt", file0)]
    fs := [("/r/a.txt", "v1")]
    mirror := []
    persisted := none
    clEvents := 0
    fileEvents := 0
    cfgSaveSnapshotsToFile := false
    git := gitEnv0 }

/-- svc0 with the v1 snapshot already shelved into c1 and a failing
stash pop. -/
def svcPopFail : Svc :=
  { svc0 with
    state :=
      { changelists := [defaultCl0, { cl0 with shelvedFiles := [snap1] }]
        activeChangelistId := "d0"
        version := 4 }
    git := gitEnvPopFail }

/-- svc0 with the v1 snapshot already shelved into c1, a clean working
tree (so no stash is pushed), and a failing commit. -/
def svcCommitFail : Svc :=
  { svc0 with
    state :=
      { changelists := [defaultCl0, { cl0 with shelvedFiles := [snap1] }]
        activeChangelistId := "d0"
        version := 4 }
    changed := []
    git := gitEnvCommitFail }

/-- svc0 with a legacy patch snapshot in c1 and the additive patch
collaborator. -/
def svcLegacy : Svc :=
  { svc0 with
    state :=
      { changelists := [defaultCl0, { cl0 with shelvedFiles := [legacySnap] }]
        activeChangelistId := "d0"
        version := 4 }
    git := gitEnvAppend }

/-- An import payload whose single item holds two snapshots for the same
normalized path. -/
def dupImport : ChangelistExport :=
  { version := 2
    changelists :=
      [{ label := "X"
         shelvedFiles :=
           [{ snap1 with originalContent := some "one", shelvedAt := 1 },
            { snap1 with originalContent := some "two", shelvedAt := 2 }] }]
    exportedAt := "now" }

/-- A version-3 state record with one snapshot, as an older schema
version would have persisted it (no repoPath stamps). -/
def oldState : ChangelistState :=
  { changelists :=
      [{ id := "d0"
         label := "Default Changelist"
         shelvedFiles :=
           [{ snap1 with originalContent := some "old", repoPath := none }]
         isDefault := true
         isActive := true
         repoPath := none }]
    activeChangelistId := "d0"
    version := 3 }

/-! ## Basic lemmas about the map and path helpers -/

theorem lookupA_cons {α : Type} (e : String × α)
    (rest : List (String × α)) (j : String) :
    lookupA (e :: rest) j = if e.1 == j then some e.2 else lookupA rest j := by
  cases e
  rfl

theorem fsErase_cons (e : String × String) (rest : FsMap) (k : String) :
    fsErase (e :: rest) k =
      if e.1 == k then fsErase rest k else e :: fsErase rest k := rfl

theorem fsGet_fsErase (m : FsMap) (k j : String) :
    fsGet (fsErase m k) j = if j = k then none else fsGet m j := by
  induction m with
  | nil => simp [fsErase, fsGet, lookupA]
  | cons e rest ih =>
    by_cases hek : e.1 = k
    · rw [fsErase_cons, if_pos (by simpa using hek), ih]
      by_cases hjk : j = k
      · simp [hjk]
      · have hej : (e.1 == j) = false := by
          simp only [beq_eq_false_iff_ne, ne_eq]
          exact fun h => hjk (h ▸ hek)
        show (if j = k then none else fsGet rest j) = _
        rw [if_neg hjk, if_neg hjk]
        show lookupA rest j = lookupA (e :: rest) j
        rw [lookupA_cons, hej]
        rfl
    · rw [fsErase_cons, if_neg (by simpa using hek)]
      by_cases hej : e.1 = j
      · have hjk : ¬ j = k := fun h => hek (hej.trans h)
        have he : (e.1 == j) = true := by simpa using hej
        show lookupA (e :: fsErase rest k) j = _
        rw [lookupA_cons, he, if_neg hjk]
        show some e.2 = lookupA (e :: rest) j
        rw [lookupA_cons, he]
        rfl
      · have hej' : (e.1 == j) = false := by simpa using hej
        show lookupA (e :: fsErase rest k) j = _
        rw [lookupA_cons, hej']
        simp only [Bool.false_eq_true, if_false]
        show fsGet (fsErase rest k) j = _
        rw [ih]
        by_cases hjk : j = k
        · simp [hjk]
        · rw [if_neg hjk, if_neg hjk]
          show lookupA rest j = lookupA (e :: rest) j
          rw [lookupA_cons, hej']
          rfl

theorem fsGet_fsSet (m : FsMap) (k v j : String) :
    fsGet (fsSet m k v) j = if j = k then some v else fsGet m j := by
  show fsGet ((k, v) :: fsErase m k) j = _
  by_cases hjk : j = k
  · simp [fsGet, lookupA_cons, hjk]
  · have hk : (k == j) = false := by
      simp only [beq_eq_false_iff_ne, ne_eq]
      exact fun h => hjk h.symm
    have h1 : fsGet (fsErase m k) j = fsGet m j := by
      rw [fsGet_fsErase]; simp [hjk]
    simpa [fsGet, lookupA_cons, hk, hjk] using h1

theorem fsErase_fsErase (m : FsMap) (k : String) :
    fsErase (fsErase m k) k = fsErase m k := by
  induction m with
  | nil => rfl
  | cons e rest ih =>
    by_cases h : (e.1 == k) = true
    · rw [fsErase_cons, if_pos h, ih]
    · rw [fsErase_cons, if_neg h, fsErase_cons, if_neg h, ih]

theorem fsErase_fsSet (m : FsMap) (k v : String) :
    fsErase (fsSet m k v) k = fsErase m k := by
  show fsErase ((k, v) :: fsErase m k) k = fsErase m k
  rw [fsErase_cons, if_pos (by simp), fsErase_fsErase]

theorem fsSet_fsSet_same (m : FsMap) (k v w : String) :
    fsSet (fsSet m k v) k w = fsSet m k w := by
  show (k, w) :: fsErase (fsSet m k v) k = (k, w) :: fsErase m k
  rw [fsErase_fsSet]

theorem normChar_normChar (c : Char) : normChar (normChar c) = normChar c := by
  unfold normChar
  by_cases h : c = '\\' <;> simp [h]

theorem normalizePath_idem (p : String) :
    normalizePath (normalizePath p) = normalizePath p := by
  unfold normalizePath
  apply congrArg
  show (List.map normChar p.data).map normChar = List.map normChar p.data
  rw [List.map_map]
  exact List.map_congr_left fun c _ => normChar_normChar c

theorem jsOr_some_self (x : String) : jsOr (some x) x = x := by
  unfold jsOr
  exact ite_self x

theorem jsOr_jsOr (x : Option String) (d : String) :
    jsOr (some (jsOr x d)) d = jsOr x d := by
  unfold jsOr
  match x with
  | none => exact ite_self d
  | some s =>
    by_cases h : s = ""
    · simp [h]
    · simp [h]

theorem string_append_right_cancel {s a b : String} (h : s ++ a = s ++ b) :
    a = b := by
  have hd : s.data ++ a.data = s.data ++ b.data := by
    have := congrArg String.data h
    simpa using this
  have hab := List.append_cancel_left hd
  cases a with
  | mk da =>
    cases b with
    | mk db => exact congrArg String.mk hab

theorem getAbsolutePathFromRepo_inj {repo a b : String}
    (h : getAbsolutePathFromRepo a repo = getAbsolutePathFromRepo b repo) :
    a = b :=
  @string_append_right_cancel (repo ++ "/") a b h

/-! ## Lemmas about updateFirst and find? -/

theorem updateFirst_cons_pos {α : Type} {p : α → Bool} {x : α}
    (f : α → α) (xs : List α) (hx : p x = true) :
    updateFirst p f (x :: xs) = f x :: xs := by
  simp [updateFirst, hx]

theorem updateFirst_cons_neg {α : Type} {p : α → Bool} {x : α}
    (f : α → α) (xs : List α) (hx : p x = false) :
    updateFirst p f (x :: xs) = x :: updateFirst p f xs := by
  simp [updateFirst, hx]

theorem updateFirst_of_forall_false {α : Type} {p : α → Bool} {l : List α}
    (f : α → α) (h : ∀ b ∈ l, p b = false) : updateFirst p f l = l := by
  induction l with
  | nil => rfl
  | cons x xs ih =>
    rw [updateFirst_cons_neg f xs (h x (by simp)),
      ih fun b hb => h b (by simp [hb])]

theorem find?_split {α : Type} {p : α → Bool} {l : List α} {a : α}
    (h : l.find? p = some a) :
    ∃ l1 l2, l = l1 ++ a :: l2 ∧ (∀ b ∈ l1, p b = false) ∧ p a = true := by
  induction l with
  | nil => simp at h
  | cons x xs ih =>
    by_cases hx : p x = true
    · rw [List.find?_cons, hx] at h
      simp only [Option.some.injEq] at h
      exact ⟨[], xs, by simp [h], by simp, h ▸ hx⟩
    · have hx' : p x = false := by simpa using hx
      rw [List.find?_cons, hx'] at h
      obtain ⟨l1, l2, rfl, hl1, ha⟩ := ih h
      refine ⟨x :: l1, l2, rfl, ?_, ha⟩
      intro b hb
      rcases List.mem_cons.mp hb with rfl | hb
      · exact hx'
      · exact hl1 b hb

theorem updateFirst_append {α : Type} {p : α → Bool} {l1 : List α}
    (f : α → α) (a : α) (l2 : List α)
    (hl1 : ∀ b ∈ l1, p b = false) (ha : p a = true) :
    updateFirst p f (l1 ++ a :: l2) = l1 ++ f a :: l2 := by
  induction l1 with
  | nil => simpa using updateFirst_cons_pos f l2 ha
  | cons x xs ih =>
    rw [List.cons_append, updateFirst_cons_neg f _ (hl1 x (by simp)),
      ih fun b hb => hl1 b (by simp [hb]), List.cons_append]

theorem find?_append_left_none {α : Type} {p : α → Bool} {l1 : List α}
    (l2 : List α) (h : ∀ b ∈ l1, p b = false) :
    (l1 ++ l2).find? p = l2.find? p := by
  induction l1 with
  | nil => simp
  | cons x xs ih =>
    rw [List.cons_append, List.find?_cons, h x (by simp)]
    exact ih fun b hb => h b (by simp [hb])

theorem find?_updateFirst_const {α : Type} {p : α → Bool} {l : List α} {a : α}
    (b : α) (h : l.find? p = some a) (hb : p b = true) :
    (updateFirst p (fun _ => b) l).find? p = some b := by
  obtain ⟨l1, l2, rfl, hl1, ha⟩ := find?_split h
  rw [updateFirst_append _ a l2 hl1 ha,
    find?_append_left_none _ hl1, List.find?_cons, hb]

theorem countP_updateFirst {α : Type} {p : α → Bool} {l : List α}
    (f : α → α) (q : α → Bool) (h : ∀ a, p a = true → q (f a) = q a) :
    (updateFirst p f l).countP q = l.countP q := by
  induction l with
  | nil => rfl
  | cons x xs ih =>
    by_cases hx : p x = true
    · rw [updateFirst_cons_pos f xs hx, List.countP_cons, List.countP_cons, h x hx]
    · rw [updateFirst_cons_neg f xs (by simpa using hx), List.countP_cons,
        List.countP_cons, ih]

theorem map_updateFirst {α β : Type} {p : α → Bool} {l : List α}
    (f : α → α) (g : α → β) (h : ∀ a, p a = true → g (f a) = g a) :
    (updateFirst p f l).map g = l.map g := by
  induction l with
  | nil => rfl
  | cons x xs ih =>
    by_cases hx : p x = true
    · rw [updateFirst_cons_pos f xs hx, List.map_cons, List.map_cons, h x hx]
    · rw [updateFirst_cons_neg f xs (by simpa using hx), List.map_cons,
        List.map_cons, ih]

theorem countP_updateFirst_le {α : Type} {p : α → Bool} {l : List α}
    (f : α → α) (q : α → Bool) :
    (updateFirst p f l).countP q ≤ l.countP q + 1 := by
  induction l with
  | nil => simp [updateFirst]
  | cons x xs ih =>
    by_cases hx : p x = true
    · rw [updateFirst_cons_pos f xs hx, List.countP_cons, List.countP_cons]
      split <;> split <;> omega
    · rw [updateFirst_cons_neg f xs (by simpa using hx), List.countP_cons,
        List.countP_cons]
      split <;> omega

theorem mem_updateFirst {α : Type} {p : α → Bool} {l : List α} {f : α → α}
    {b : α} (h : b ∈ updateFirst p f l) :
    b ∈ l ∨ ∃ a ∈ l, p a = true ∧ b = f a := by
  induction l with
  | nil => simp [updateFirst] at h
  | cons x xs ih =>
    by_cases hx : p x = true
    · rw [updateFirst_cons_pos f xs hx] at h
      rcases List.mem_cons.mp h with rfl | h
      · exact Or.inr ⟨x, by simp, hx, rfl⟩
      · exact Or.inl (by simp [h])
    · rw [updateFirst_cons_neg f xs (by simpa using hx)] at h
      rcases List.mem_cons.mp h with rfl | h
      · exact Or.inl (by simp)
      · rcases ih h with h | ⟨a, ha, hpa, rfl⟩
        · exact Or.inl (by simp [h])
        · exact Or.inr ⟨a, by simp [ha], hpa, rfl⟩

/-! ## Frame lemmas: which Svc fields each operation touches -/

theorem fsOnly_refl (s : Svc) : FsOnly s s := ⟨s.fs, rfl⟩

theorem fsOnly_trans {s s' s'' : Svc} (h1 : FsOnly s s') (h2 : FsOnly s' s'') :
    FsOnly s s'' := by
  obtain ⟨f1, rfl⟩ := h1
  obtain ⟨f2, rfl⟩ := h2
  exact ⟨f2, rfl⟩

theorem unshelveFileInternal_fsOnly (s : Svc) (sf : ShelvedFile) :
    FsOnly s (unshelveFileInternal s sf).1 := by
  unfold unshelveFileInternal
  split
  · exact ⟨_, rfl⟩
  · split
    · exact ⟨_, rfl⟩
    · split
      · split
        · exact ⟨_, rfl⟩
        · exact fsOnly_refl s
      · exact fsOnly_refl s

theorem unshelveAllInternal_fsOnly (files : List ShelvedFile) :
    ∀ s : Svc, FsOnly s (unshelveAllInternal s files).1 := by
  induction files with
  | nil => intro s; exact fsOnly_refl s
  | cons sf rest ih =>
    intro s
    show FsOnly s (match unshelveFileInternal s sf with
      | (s1, some e) => (s1, some e)
      | (s1, none) => unshelveAllInternal s1 rest).1
    rcases h : unshelveFileInternal s sf with ⟨s1, e⟩
    have h1 : FsOnly s s1 := by
      have := unshelveFileInternal_fsOnly s sf
      rwa [h] at this
    cases e with
    | none => exact fsOnly_trans h1 (ih s1)
    | some e => exact h1

theorem refresh_state (s : Svc) : (refresh s).state = s.state := by
  unfold refresh
  cases s.git.statusOf s.fs <;> rfl

theorem refresh_fs (s : Svc) : (refresh s).fs = s.fs := by
  unfold refresh
  cases s.git.statusOf s.fs <;> rfl

theorem refresh_repoPath (s : Svc) : (refresh s).repoPath = s.repoPath := by
  unfold refresh
  cases s.git.statusOf s.fs <;> rfl

theorem refresh_persisted (s : Svc) : (refresh s).persisted = s.persisted := by
  unfold refresh
  cases s.git.statusOf s.fs <;> rfl

theorem fsOnly_state {s s' : Svc} (h : FsOnly s s') : s'.state = s.state := by
  obtain ⟨f, rfl⟩ := h
  rfl

theorem fsOnly_changed {s s' : Svc} (h : FsOnly s s') : s'.changed = s.changed := by
  obtain ⟨f, rfl⟩ := h
  rfl

theorem fsOnly_repoPath {s s' : Svc} (h : FsOnly s s') :
    s'.repoPath = s.repoPath := by
  obtain ⟨f, rfl⟩ := h
  rfl

theorem fsOnly_git {s s' : Svc} (h : FsOnly s s') : s'.git = s.git := by
  obtain ⟨f, rfl⟩ := h
  rfl

theorem fireChangelists_state (s : Svc) : (fireChangelists s).state = s.state := rfl

theorem saveState_state (s : Svc) : (saveState s).state = s.state := rfl

theorem unshelveFile_state (s : Svc) (cid p : String) :
    ((unshelveFile s cid p).1).state = s.state := by
  unfold unshelveFile
  split
  · rfl
  next cl hcl =>
    dsimp only
    split
    · rfl
    next sf hfind =>
      split
      next s1 e heq =>
        have hfo := unshelveFileInternal_fsOnly s sf
        rw [heq] at hfo
        exact fsOnly_state hfo
      next s1 heq =>
        have hfo := unshelveFileInternal_fsOnly s sf
        rw [heq] at hfo
        show (fireChangelists (refresh s1)).state = s.state
        rw [fireChangelists_state, refresh_state]
        exact fsOnly_state hfo

theorem unshelveAll_state (s : Svc) (cid : String) :
    ((unshelveAll s cid).1).state = s.state := by
  unfold unshelveAll
  split
  · rfl
  next cl hcl =>
    split
    next s1 e heq =>
      have hfo := unshelveAllInternal_fsOnly cl.shelvedFiles s
      rw [heq] at hfo
      exact fsOnly_state hfo
    next s1 heq =>
      have hfo := unshelveAllInternal_fsOnly cl.shelvedFiles s
      rw [heq] at hfo
      show (fireChangelists (refresh s1)).state = s.state
      rw [fireChangelists_state, refresh_state]
      exact fsOnly_state hfo

theorem applyAndStage_state (s : Svc) (cid p : String) :
    ((applyAndStage s cid p).1).state = s.state := by
  unfold applyAndStage
  split
  · rfl
  next cl hcl =>
    dsimp only
    split
    · rfl
    next sf hfind =>
      split
      next s1 e heq =>
        have hfo := unshelveFileInternal_fsOnly s sf
        rw [heq] at hfo
        exact fsOnly_state hfo
      next s1 heq =>
        have hfo := unshelveFileInternal_fsOnly s sf
        rw [heq] at hfo
        have h1 : s1.state = s.state := fsOnly_state hfo
        split
        · exact h1
        · show (fireChangelists (refresh s1)).state = s.state
          rw [fireChangelists_state, refresh_state]
          exact h1

theorem applyAllAndStage_state (s : Svc) (cid : String) :
    ((applyAllAndStage s cid).1).state = s.state := by
  unfold applyAllAndStage
  split
  · rfl
  next cl hcl =>
    split
    · rfl
    · split
      next s1 e heq =>
        have hfo := unshelveAllInternal_fsOnly cl.shelvedFiles s
        rw [heq] at hfo
        exact fsOnly_state hfo
      next s1 heq =>
        have hfo := unshelveAllInternal_fsOnly cl.shelvedFiles s
        rw [heq] at hfo
        have h1 : s1.state = s.state := fsOnly_state hfo
        split
        · exact h1
        · show (fireChangelists (refresh s1)).state = s.state
          rw [fireChangelists_state, refresh_state]
          exact h1

theorem commitWorkingChanges_state (s : Svc) (message : String) :
    ((commitWorkingChanges s message).1).state = s.state := by
  unfold commitWorkingChanges
  dsimp only
  split
  · rfl
  · split
    · rfl
    · split
      · rfl
      · exact refresh_state s

theorem revertFile_state (s : Svc) (p : String) :
    ((revertFile s p).1).state = s.state := by
  unfold revertFile
  dsimp only
  split
  · rfl
  next file hfile =>
    split
    · split
      · rfl
      · exact refresh_state _
    · split
      · rfl
      · exact refresh_state _

/-! ## The registry invariants -/

theorem invL_updateFirst {l : List Changelist} (p : Changelist → Bool)
    (f : Changelist → Changelist)
    (hd : ∀ a, (f a).isDefault = a.isDefault)
    (ha : ∀ a, (f a).isActive = a.isActive)
    (hid : ∀ a, (f a).id = a.id)
    (h : InvL l) : InvL (updateFirst p f l) := by
  obtain ⟨h1, h2, h3⟩ := h
  refine ⟨?_, ?_, ?_⟩
  · rw [countP_updateFirst f _ fun a _ => hd a]
    exact h1
  · rw [countP_updateFirst f _ fun a _ => ha a]
    exact h2
  · rw [map_updateFirst f _ fun a _ => hid a]
    exact h3

theorem invL_append_new {l : List Changelist} {c : Changelist}
    (h : InvL l) (hd : c.isDefault = false) (ha : c.isActive = false)
    (hid : c.id ∉ l.map (·.id)) : InvL (l ++ [c]) := by
  obtain ⟨h1, h2, h3⟩ := h
  refine ⟨?_, ?_, ?_⟩
  · rw [List.countP_append, List.countP_cons]
    simp [hd, h1]
  · rw [List.countP_append, List.countP_cons]
    simp only [List.countP_nil, Nat.zero_add, ha]
    simpa using h2
  · rw [List.map_append, List.map_cons, List.map_nil]
    rw [List.nodup_append]
    refine ⟨h3, List.nodup_singleton _, ?_⟩
    intro a ha' hac
    have hac' : a = c.id := by simpa using hac
    exact hid (hac' ▸ ha')

theorem invL_replace_first {l : List Changelist} {pid : String} {a : Changelist}
    (h : l.find? (fun c => c.id == pid) = some a) (b : Changelist)
    (hd : b.isDefault = a.isDefault) (hac : b.isActive = a.isActive)
    (hid : b.id = a.id) (hinv : InvL l) :
    InvL (updateFirst (fun c => c.id == pid) (fun _ => b) l) := by
  obtain ⟨l1, l2, rfl, hl1, hpa⟩ := find?_split h
  rw [updateFirst_append _ a l2 hl1 hpa]
  obtain ⟨h1, h2, h3⟩ := hinv
  refine ⟨?_, ?_, ?_⟩
  · rw [List.countP_append, List.countP_cons, hd]
    rw [List.countP_append, List.countP_cons] at h1
    exact h1
  · rw [List.countP_append, List.countP_cons, hac]
    rw [List.countP_append, List.countP_cons] at h2
    exact h2
  · rw [List.map_append, List.map_cons, hid]
    rw [List.map_append, List.map_cons] at h3
    exact h3

theorem filter_ne_split {l : List Changelist} {id : String} {cl : Changelist}
    (h : l.find? (fun c => c.id == id) = some cl)
    (hnd : (l.map (·.id)).Nodup) :
    ∃ l1 l2, l = l1 ++ cl :: l2 ∧
      l.filter (fun c => c.id != id) = l1 ++ l2 := by
  obtain ⟨l1, l2, rfl, hl1, hcl⟩ := find?_split h
  refine ⟨l1, l2, rfl, ?_⟩
  have hclid : cl.id = id := by simpa using hcl
  have hmem : cl.id ∉ l2.map (·.id) := by
    rw [List.map_append, List.map_cons] at hnd
    have h2 := (List.nodup_append.mp hnd).2.1
    exact (List.nodup_cons.mp h2).1
  have hfl1 : l1.filter (fun c => c.id != id) = l1 :=
    List.filter_eq_self.mpr fun b hb => by
      have := hl1 b hb
      simpa [bne] using this
  have hfl2 : l2.filter (fun c => c.id != id) = l2 :=
    List.filter_eq_self.mpr fun b hb => by
      have hbne : b.id ≠ id := fun hbid =>
        hmem (hclid ▸ hbid ▸ List.mem_map_of_mem (·.id) hb)
      simpa [bne] using hbne
  rw [List.filter_append, hfl1, List.filter_cons]
  have hdrop : (cl.id != id) = false := by simp [hclid]
  rw [hdrop]
  simp only [Bool.false_eq_true, if_false]
  rw [hfl2]

theorem invL_remove_middle {l1 l2 : List Changelist} {cl : Changelist}
    (h : InvL (l1 ++ cl :: l2)) (hd : cl.isDefault = false) :
    InvL (l1 ++ l2) := by
  obtain ⟨h1, h2, h3⟩ := h
  refine ⟨?_, ?_, ?_⟩
  · rw [List.countP_append] at h1 ⊢
    rw [List.countP_cons] at h1
    simp [hd] at h1
    omega
  · rw [List.countP_append] at h2 ⊢
    rw [List.countP_cons] at h2
    omega
  · rw [List.map_append] at h3 ⊢
    rw [List.map_cons] at h3
    rw [List.nodup_append] at h3 ⊢
    obtain ⟨ha, hb, hc⟩ := h3
    refine ⟨ha, (List.nodup_cons.mp hb).2, ?_⟩
    intro a ha1 ha2
    exact hc ha1 (List.mem_cons_of_mem _ ha2)

theorem countP_active_rest {l1 l2 : List Changelist} {cl : Changelist}
    (h : (l1 ++ cl :: l2).countP (·.isActive) ≤ 1) (hcl : cl.isActive = true) :
    (l1 ++ l2).countP (·.isActive) = 0 := by
  rw [List.countP_append, List.countP_cons] at h
  rw [List.countP_append]
  simp [hcl] at h
  omega

/-! ## Preservation of the registry invariants by every operation -/

theorem createChangelist_inv (s : Svc) (label freshId : String)
    (hfresh : ∀ cl ∈ s.state.changelists, cl.id ≠ freshId)
    (h : Inv s.state) : Inv ((createChangelist s label freshId).1).state := by
  refine invL_append_new h rfl rfl ?_
  intro hmem
  obtain ⟨cl, hcl, hid⟩ := List.mem_map.mp hmem
  exact hfresh cl hcl hid

theorem renameChangelist_inv (s : Svc) (id newLabel : String)
    (h : Inv s.state) : Inv ((renameChangelist s id newLabel).1).state := by
  unfold renameChangelist
  split
  · exact h
  · exact invL_updateFirst _ _ (fun a => rfl) (fun a => rfl) (fun a => rfl) h

theorem shelveFile_inv (s : Svc) (p cid : String) (now : Nat)
    (h : Inv s.state) : Inv ((shelveFile s p cid now).1).state := by
  unfold shelveFile
  dsimp only
  split
  · exact h
  next file hfile =>
    split
    · exact h
    next changelist hcl =>
      split
      · exact h
      · dsimp only
        show InvL ((saveSnapshotToFile _ _ _).state.changelists)
        have hstate :
            ∀ s' sf cl', (saveSnapshotToFile s' sf cl').state = s'.state := by
          intro s' sf cl'
          unfold saveSnapshotToFile
          split
          · rfl
          · split
            · rfl
            · split <;> rfl
        rw [hstate]
        exact invL_replace_first hcl _ rfl rfl rfl h

theorem deleteShelvedFile_inv (s : Svc) (cid p : String)
    (h : Inv s.state) : Inv ((deleteShelvedFile s cid p).1).state := by
  unfold deleteShelvedFile
  split
  · exact h
  next changelist hcl =>
    dsimp only
    have hdel : ∀ sf, (deleteSnapshotFile s sf changelist).state = s.state := by
      intro sf
      unfold deleteSnapshotFile
      split <;> rfl
    split
    next sf hsf =>
      show InvL (updateFirst _ _ (deleteSnapshotFile s sf changelist).state.changelists)
      rw [hdel]
      exact invL_updateFirst _ _ (fun a => rfl) (fun a => rfl) (fun a => rfl) h
    · exact invL_updateFirst _ _ (fun a => rfl) (fun a => rfl) (fun a => rfl) h

theorem commitWorkingChanges_inv (s : Svc) (message : String)
    (h : Inv s.state) : Inv ((commitWorkingChanges s message).1).state := by
  have := commitWorkingChanges_state s message
  unfold Inv
  rw [this]
  exact h

theorem unshelveFile_inv (s : Svc) (cid p : String)
    (h : Inv s.state) : Inv ((unshelveFile s cid p).1).state := by
  unfold Inv
  rw [unshelveFile_state]
  exact h

theorem unshelveAll_inv (s : Svc) (cid : String)
    (h : Inv s.state) : Inv ((unshelveAll s cid).1).state := by
  unfold Inv
  rw [unshelveAll_state]
  exact h

theorem applyAndStage_inv (s : Svc) (cid p : String)
    (h : Inv s.state) : Inv ((applyAndStage s cid p).1).state := by
  unfold Inv
  rw [applyAndStage_state]
  exact h

theorem applyAllAndStage_inv (s : Svc) (cid : String)
    (h : Inv s.state) : Inv ((applyAllAndStage s cid).1).state := by
  unfold Inv
  rw [applyAllAndStage_state]
  exact h

theorem revertFile_inv (s : Svc) (p : String)
    (h : Inv s.state) : Inv ((revertFile s p).1).state := by
  unfold Inv
  rw [revertFile_state]
  exact h

theorem refresh_inv (s : Svc) (h : Inv s.state) : Inv (refresh s).state := by
  unfold Inv
  rw [refresh_state]
  exact h

theorem stashPushIf_fsOnly (s : Svc) (b : Bool) :
    FsOnly s (stashPushIf s b).1 := by
  unfold stashPushIf
  split
  · split
    · exact ⟨_, rfl⟩
    · exact fsOnly_refl s
  · exact fsOnly_refl s

theorem stashPopIf_fsOnly (s : Svc) (b : Bool) :
    FsOnly s (stashPopIf s b).1 := by
  unfold stashPopIf
  split
  · split
    · exact ⟨_, rfl⟩
    · exact fsOnly_refl s
  · exact fsOnly_refl s

theorem stashPushIf_state_of_eq {s s' : Svc} {b : Bool} {e : Option Err}
    (h : stashPushIf s b = (s', e)) : s'.state = s.state := by
  have hfo := stashPushIf_fsOnly s b
  rw [h] at hfo
  exact fsOnly_state hfo

theorem stashPopIf_state_of_eq {s s' : Svc} {b : Bool} {e : Option Err}
    (h : stashPopIf s b = (s', e)) : s'.state = s.state := by
  have hfo := stashPopIf_fsOnly s b
  rw [h] at hfo
  exact fsOnly_state hfo

theorem commitChangelist_inv (s : Svc) (cid message : String)
    (h : Inv s.state) : Inv ((commitChangelist s cid message).1).state := by
  unfold commitChangelist
  split
  · exact h
  next changelist hcl =>
    split
    · exact commitWorkingChanges_inv s message h
    · split
      · exact h
      · dsimp only
        split
        next s1 e heq =>
          have hfo := stashPushIf_fsOnly s (decide (s.changed.length > 0))
          rw [heq] at hfo
          unfold Inv
          rw [fsOnly_state hfo]
          exact h
        next s1 heq =>
          have hfo := stashPushIf_fsOnly s (decide (s.changed.length > 0))
          rw [heq] at hfo
          have hs1 : s1.state = s.state := fsOnly_state hfo
          split
          next s2 e heq2 =>
            have hfo2 := unshelveAllInternal_fsOnly changelist.shelvedFiles s1
            rw [heq2] at hfo2
            unfold Inv
            rw [fsOnly_state hfo2, hs1]
            exact h
          next s2 heq2 =>
            have hfo2 := unshelveAllInternal_fsOnly changelist.shelvedFiles s1
            rw [heq2] at hfo2
            have hs2 : s2.state = s.state := (fsOnly_state hfo2).trans hs1
            split
            · unfold Inv
              rw [hs2]
              exact h
            · split
              · unfold Inv
                rw [hs2]
                exact h
              · have hinv3 :
                    Inv (ChangelistState.mk
                      (updateFirst (fun cl => cl.id == cid)
                        (fun cl => { cl with shelvedFiles := [] })
                        s2.state.changelists)
                      s2.state.activeChangelistId s2.state.version) := by
                  show InvL (updateFirst _ _ s2.state.changelists)
                  have : InvL s2.state.changelists := by rw [hs2]; exact h
                  exact invL_updateFirst _ _ (fun a => rfl) (fun a => rfl)
                    (fun a => rfl) this
                split
                next s4 e heq4 =>
                  have hs4 := stashPopIf_state_of_eq heq4
                  unfold Inv
                  rw [hs4]
                  exact hinv3
                next s4 heq4 =>
                  have hs4 := stashPopIf_state_of_eq heq4
                  unfold Inv
                  rw [fireChangelists_state, refresh_state, saveState_state, hs4]
                  exact hinv3

theorem setActiveChangelist_inv (s : Svc) (id : String)
    (h : Inv s.state) : Inv ((setActiveChangelist s id).1).state := by
  unfold setActiveChangelist
  split
  · exact h
  next cl hcl =>
    unfold Inv
    rw [fireChangelists_state, saveState_state]
    dsimp only
    obtain ⟨h1, h2, h3⟩ := h
    refine ⟨?_, ?_, ?_⟩
    · rw [countP_updateFirst (fun cl : Changelist => { cl with isActive := true })
        (fun x => x.isDefault) fun a _ => rfl, List.countP_map]
      exact h1
    · calc (updateFirst (fun cl => cl.id == id)
            (fun cl => { cl with isActive := true })
            (s.state.changelists.map fun cl =>
              { cl with isActive := false })).countP (·.isActive)
          ≤ (s.state.changelists.map fun cl =>
              { cl with isActive := false }).countP (·.isActive) + 1 :=
            countP_updateFirst_le _ _
      _ ≤ 1 := by
            rw [List.countP_map]
            have hz : s.state.changelists.countP
                ((fun c : Changelist => c.isActive) ∘
                  fun cl => { cl with isActive := false }) = 0 := by
              apply List.countP_eq_zero.mpr
              intro a ha
              simp
            rw [hz]
    · rw [map_updateFirst (fun cl : Changelist => { cl with isActive := true })
        (fun x => x.id) fun a _ => rfl, List.map_map]
      exact h3

theorem deleteChangelist_inv (s : Svc) (id : String)
    (h : Inv s.state) : Inv ((deleteChangelist s id).1).state := by
  unfold deleteChangelist
  split
  · exact h
  next changelist hcl =>
    split
    · exact h
    next hndef =>
      have hndef' : changelist.isDefault = false := by simpa using hndef
      split
      next s1 e heq =>
        have hfo := unshelveAllInternal_fsOnly changelist.shelvedFiles s
        rw [heq] at hfo
        unfold Inv
        rw [fsOnly_state hfo]
        exact ⟨h.1, h.2.1, h.2.2⟩
      next s1 heq =>
        have hfo := unshelveAllInternal_fsOnly changelist.shelvedFiles s
        rw [heq] at hfo
        have hs1 : s1.state = s.state := fsOnly_state hfo
        have hfind : s1.state.changelists.find? (fun c => c.id == id) =
            some changelist := by rw [hs1]; exact hcl
        have hinv1 : InvL s1.state.changelists := by rw [hs1]; exact h
        obtain ⟨l1, l2, hsplit, hfilter⟩ :=
          filter_ne_split hfind (by rw [hs1]; exact h.2.2)
        have hfiltered : InvL (s1.state.changelists.filter (fun c => c.id != id)) := by
          rw [hfilter]
          exact invL_remove_middle (hsplit ▸ hinv1) hndef'
        dsimp only
        split
        next hactive =>
          split
          · -- no default found afterward: state is the filtered list
            exact hfiltered
          next defaultCl hdef =>
            unfold Inv
            rw [fireChangelists_state, refresh_state, saveState_state]
            dsimp only
            have hact : changelist.isActive = true := hactive
            have hz : (s1.state.changelists.filter
                (fun c => c.id != id)).countP (·.isActive) = 0 := by
              rw [hfilter]
              refine countP_active_rest ?_ hact
              rw [← hsplit]
              exact hinv1.2.1
            refine ⟨?_, ?_, ?_⟩
            · rw [countP_updateFirst (fun cl : Changelist => { cl with isActive := true })
                (fun x => x.isDefault) fun a _ => rfl]
              exact hfiltered.1
            · calc (updateFirst (fun c : Changelist => c.isDefault)
                    (fun cl => { cl with isActive := true })
                    (s1.state.changelists.filter
                      (fun c => c.id != id))).countP (·.isActive)
                  ≤ (s1.state.changelists.filter
                      (fun c => c.id != id)).countP (·.isActive) + 1 :=
                    countP_updateFirst_le _ _
                _ ≤ 1 := by rw [hz]
            · rw [map_updateFirst (fun cl : Changelist => { cl with isActive := true })
                (fun x => x.id) fun a _ => rfl]
              exact hfiltered.2.2
        next hactive =>
          unfold Inv
          rw [fireChangelists_state, refresh_state, saveState_state]
          exact hfiltered

theorem importLoop_inv (items : List ExportItem) :
    ∀ (ids : List String) (s : Svc), Inv s.state → ids.Nodup →
      (∀ id ∈ ids, ∀ cl ∈ s.state.changelists, cl.id ≠ id) →
      items.length ≤ ids.length →
      Inv ((importLoop s items ids).1).state := by
  induction items with
  | nil => intro ids s h _ _ _; exact h
  | cons item rest ih =>
    intro ids s h hnodup hfresh hlen
    unfold importLoop
    split
    next hlabel =>
      dsimp only
      match ids, hlen with
      | id0 :: ids', hlen =>
        dsimp only [List.headD, List.tail]
        have hfresh0 : ∀ cl ∈ s.state.changelists, cl.id ≠ id0 :=
          hfresh id0 (by simp)
        have hinv1 : Inv ((createChangelist s item.label id0).1).state :=
          createChangelist_inv s item.label id0 hfresh0 h
        have hinv2 : InvL (updateFirst (fun cl => cl.id == id0)
            (fun cl => { cl with shelvedFiles := item.shelvedFiles })
            ((createChangelist s item.label id0).1).state.changelists) :=
          invL_updateFirst _ _ (fun a => rfl) (fun a => rfl) (fun a => rfl) hinv1
        refine ih ids' _ hinv2 (List.nodup_cons.mp hnodup).2 ?_
          (by simp only [List.length_cons] at hlen; omega)
        intro nid hnid cl hcl
        have hids : (updateFirst (fun cl => cl.id == id0)
            (fun cl => { cl with shelvedFiles := item.shelvedFiles })
            ((createChangelist s item.label id0).1).state.changelists).map (·.id) =
            s.state.changelists.map (·.id) ++ [id0] := by
          rw [map_updateFirst
            (fun cl : Changelist => { cl with shelvedFiles := item.shelvedFiles })
            (fun x => x.id) fun a _ => rfl]
          show (s.state.changelists ++ [_]).map (fun x : Changelist => x.id) = _
          rw [List.map_append]
          rfl
        have hclid : cl.id ∈ s.state.changelists.map (·.id) ++ [id0] := by
          rw [← hids]
          exact List.mem_map_of_mem (·.id) hcl
        intro heq
        rcases List.mem_append.mp hclid with hmem | hmem
        · obtain ⟨cl', hcl', hid'⟩ := List.mem_map.mp hmem
          exact hfresh nid (by simp [hnid]) cl' hcl' (hid'.trans heq)
        · have : cl.id = id0 := by simpa using hmem
          have : nid = id0 := by rw [← heq, this]
          exact (List.nodup_cons.mp hnodup).1 (this ▸ hnid)
    next hlabel =>
      exact ih ids s h hnodup hfresh
        (by simp only [List.length_cons] at hlen; omega)

theorem importChangelists_inv (s : Svc) (data : ChangelistExport)
    (freshIds : List String) (hnodup : freshIds.Nodup)
    (hfresh : ∀ id ∈ freshIds, ∀ cl ∈ s.state.changelists, cl.id ≠ id)
    (hlen : data.changelists.length ≤ freshIds.length)
    (h : Inv s.state) : Inv ((importChangelists s data freshIds).1).state := by
  unfold importChangelists
  dsimp only
  show Inv (fireChangelists (saveState _)).state
  rw [fireChangelists_state, saveState_state]
  exact importLoop_inv data.changelists freshIds s h hnodup hfresh hlen

/-- Every operation preserves the registry invariants. -/
theorem step_inv {s s' : Svc} (hstep : Step s s') (h : Inv s.state) :
    Inv s'.state := by
  cases hstep with
  | create label freshId hfresh => exact createChangelist_inv s label freshId hfresh h
  | rename id newLabel => exact renameChangelist_inv s id newLabel h
  | delete id => exact deleteChangelist_inv s id h
  | setActive id => exact setActiveChangelist_inv s id h
  | shelve p cid now => exact shelveFile_inv s p cid now h
  | unshelve cid p => exact unshelveFile_inv s cid p h
  | unshelveAllStep cid => exact unshelveAll_inv s cid h
  | applyStage cid p => exact applyAndStage_inv s cid p h
  | applyAllStage cid => exact applyAllAndStage_inv s cid h
  | discardShelved cid p => exact deleteShelvedFile_inv s cid p h
  | commitWorking message => exact commitWorkingChanges_inv s message h
  | commit cid message => exact commitChangelist_inv s cid message h
  | importStep data freshIds hnodup hfresh hlen =>
      exact importChangelists_inv s data freshIds hnodup hfresh hlen h
  | revert p => exact revertFile_inv s p h
  | refreshStep => exact refresh_inv s h

/-- The freshly-initialized state satisfies the registry invariants. -/
theorem initSvc_inv (repoPath freshId : String) (fs0 : FsMap) (git : GitEnv)
    (cfg : Bool) : Inv (initSvc repoPath freshId fs0 git cfg).state := by
  show InvL (defaultState freshId repoPath).changelists
  refine ⟨?_, ?_, ?_⟩ <;> simp [defaultState]

/-- The registry invariants hold in every reachable state. -/
theorem reachable_inv {s0 s : Svc} (h0 : Inv s0.state)
    (h : Reachable s0 s) : Inv s.state := by
  induction h with
  | refl => exact h0
  | step _ hstep ih => exact step_inv hstep ih

/-! ## Effect lemmas for shelve and unshelve -/

theorem saveSnapshotToFile_state (s : Svc) (sf : ShelvedFile) (cl : Changelist) :
    (saveSnapshotToFile s sf cl).state = s.state := by
  unfold saveSnapshotToFile
  split
  · rfl
  · split
    · rfl
    · split <;> rfl

theorem saveSnapshotToFile_fs (s : Svc) (sf : ShelvedFile) (cl : Changelist) :
    (saveSnapshotToFile s sf cl).fs = s.fs := by
  unfold saveSnapshotToFile
  split
  · rfl
  · split
    · rfl
    · split <;> rfl

theorem saveSnapshotToFile_changed (s : Svc) (sf : ShelvedFile) (cl : Changelist) :
    (saveSnapshotToFile s sf cl).changed = s.changed := by
  unfold saveSnapshotToFile
  split
  · rfl
  · split
    · rfl
    · split <;> rfl

theorem saveSnapshotToFile_repoPath (s : Svc) (sf : ShelvedFile) (cl : Changelist) :
    (saveSnapshotToFile s sf cl).repoPath = s.repoPath := by
  unfold saveSnapshotToFile
  split
  · rfl
  · split
    · rfl
    · split <;> rfl

theorem saveSnapshotToFile_git (s : Svc) (sf : ShelvedFile) (cl : Changelist) :
    (saveSnapshotToFile s sf cl).git = s.git := by
  unfold saveSnapshotToFile
  split
  · rfl
  · split
    · rfl
    · split <;> rfl

/-- A successful shelve: no error, the working tree, changed map,
repository and git collaborator are untouched, and the target changelist
now holds the captured snapshot by the replace-or-append rule. -/
theorem shelveFile_ok (s : Svc) (p cid : String) (now : Nat)
    (file : ChangedFile) (cl : Changelist)
    (hfile : lookupA s.changed (normalizePath p) = some file)
    (hcl : getChangelist s.state cid = some cl)
    (hdef : cl.isDefault = false) :
    (shelveFile s p cid now).2 = none ∧
    ((shelveFile s p cid now).1).fs = s.fs ∧
    ((shelveFile s p cid now).1).changed = s.changed ∧
    ((shelveFile s p cid now).1).repoPath = s.repoPath ∧
    ((shelveFile s p cid now).1).git = s.git ∧
    getChangelist ((shelveFile s p cid now).1).state cid =
      some { cl with
        shelvedFiles :=
          replaceOrAppend cl.shelvedFiles (normalizePath p)
            (capturedSnapshot s file (normalizePath p) now) } := by
  have hshelve : shelveFile s p cid now =
      (fireChangelists (saveState (saveSnapshotToFile
        { s with
          state :=
            { s.state with
              changelists :=
                updateFirst (fun c => c.id == cid)
                  (fun _ =>
                    { cl with
                      shelvedFiles :=
                        replaceOrAppend cl.shelvedFiles (normalizePath p)
                          (capturedSnapshot s file (normalizePath p) now) })
                  s.state.changelists } }
        (capturedSnapshot s file (normalizePath p) now)
        { cl with
          shelvedFiles :=
            replaceOrAppend cl.shelvedFiles (normalizePath p)
              (capturedSnapshot s file (normalizePath p) now) })), none) := by
    unfold shelveFile
    dsimp only
    rw [hfile, hcl]
    dsimp only
    rw [if_neg (by simp [hdef])]
  rw [hshelve]
  refine ⟨rfl, ?_, ?_, ?_, ?_, ?_⟩
  · show (saveSnapshotToFile _ _ _).fs = s.fs
    rw [saveSnapshotToFile_fs]
  · show (saveSnapshotToFile _ _ _).changed = s.changed
    rw [saveSnapshotToFile_changed]
  · show (saveSnapshotToFile _ _ _).repoPath = s.repoPath
    rw [saveSnapshotToFile_repoPath]
  · show (saveSnapshotToFile _ _ _).git = s.git
    rw [saveSnapshotToFile_git]
  · show getChangelist (saveSnapshotToFile _ _ _).state cid = _
    rw [saveSnapshotToFile_state]
    have hfind : s.state.changelists.find? (fun c => c.id == cid) = some cl := hcl
    have hid := List.find?_some hfind
    exact find?_updateFirst_const _ hfind hid

/-- The replace-or-append rule always leaves the new snapshot as the one
found for its normalized path, provided the stored path is normalized. -/
theorem replaceOrAppend_find? (files : List ShelvedFile) (np : String)
    (snap : ShelvedFile) (hsnap : (normalizePath snap.relativePath == np) = true) :
    (replaceOrAppend files np snap).find?
      (fun f => normalizePath f.relativePath == np) = some snap := by
  unfold replaceOrAppend
  split
  next hex =>
    obtain ⟨old, hold⟩ := Option.isSome_iff_exists.mp hex
    exact find?_updateFirst_const _ hold hsnap
  next hex =>
    have hnone : files.find? (fun f => normalizePath f.relativePath == np) = none := by
      rcases h : files.find? (fun f => normalizePath f.relativePath == np) with _ | v
      · exact h
      · rw [h] at hex
        simp at hex
    rw [find?_append_left_none _ fun b hb => ?_]
    · rw [List.find?_cons, hsnap]
    · have := List.find?_eq_none.mp hnone b hb
      simpa using this

/-- The internal unshelve helper succeeds on every snapshot that is not
a legacy-patch snapshot, and its effect on the service is exactly the
restoredFs update of the working tree. -/
theorem unshelveFileInternal_effect (s : Svc) (sf : ShelvedFile)
    (hnl : sf.status = .deleted ∨ sf.originalContent.isSome ∨ sf.patch = "") :
    unshelveFileInternal s sf = ({ s with fs := restoredFs s.fs s.repoPath sf }, none) := by
  unfold unshelveFileInternal restoredFs absKey
  dsimp only
  by_cases hd : sf.status = .deleted
  · rw [if_pos hd, if_pos hd]
  · rw [if_neg hd, if_neg hd]
    rcases hc : sf.originalContent with _ | c
    · have hp : sf.patch = "" := by
        rcases hnl with h | h | h
        · exact absurd h hd
        · rw [hc] at h
          simp at h
        · exact h
      rw [hp]
      simp
    · rfl

theorem fireChangelists_fs (s : Svc) : (fireChangelists s).fs = s.fs := rfl

/-- A successful single-file unshelve: no error, the state is untouched
(the snapshot is retained), and the working tree carries exactly the
restoredFs update. -/
theorem unshelveFile_ok (s : Svc) (cid p : String)
    (cl : Changelist) (sf : ShelvedFile)
    (hcl : getChangelist s.state cid = some cl)
    (hsf : cl.shelvedFiles.find?
      (fun f => normalizePath f.relativePath == normalizePath p) = some sf)
    (hnl : sf.status = .deleted ∨ sf.originalContent.isSome ∨ sf.patch = "") :
    (unshelveFile s cid p).2 = none ∧
    ((unshelveFile s cid p).1).fs = restoredFs s.fs s.repoPath sf := by
  have heff := unshelveFileInternal_effect s sf hnl
  unfold unshelveFile
  dsimp only
  rw [hcl]
  dsimp only
  rw [hsf]
  dsimp only
  rw [heff]
  refine ⟨rfl, ?_⟩
  show (fireChangelists (refresh _)).fs = _
  rw [fireChangelists_fs, refresh_fs]

theorem fsGet_restoredFs_self (fs : FsMap) (repo : String) (sf : ShelvedFile)
    (hns : sf.status = .deleted ∨ sf.originalContent.isSome) :
    fsGet (restoredFs fs repo sf) (absKey repo sf) =
      if sf.status = .deleted then none else sf.originalContent := by
  unfold restoredFs
  by_cases hd : sf.status = .deleted
  · rw [if_pos hd, if_pos hd, fsGet_fsErase, if_pos rfl]
  · rw [if_neg hd, if_neg hd]
    rcases hc : sf.originalContent with _ | c
    · rcases hns with h | h
      · exact absurd h hd
      · rw [hc] at h
        simp at h
    · rw [fsGet_fsSet, if_pos rfl]

theorem fsGet_restoredFs_other (fs : FsMap) (repo : String) (sf : ShelvedFile)
    (k : String) (hk : k ≠ absKey repo sf) :
    fsGet (restoredFs fs repo sf) k = fsGet fs k := by
  unfold restoredFs
  by_cases hd : sf.status = .deleted
  · rw [if_pos hd, fsGet_fsErase, if_neg hk]
  · rw [if_neg hd]
    rcases sf.originalContent with _ | c
    · rfl
    · rw [fsGet_fsSet, if_neg hk]

/-- The restore loop over content/deletion snapshots: it never fails and
folds the restoredFs update over the list, all relative to the one
repository of this service. -/
theorem unshelveAllInternal_effect (files : List ShelvedFile) :
    ∀ s : Svc, (∀ sf ∈ files, sf.status = .deleted ∨ sf.originalContent.isSome) →
    unshelveAllInternal s files =
      ({ s with
         fs := files.foldl (fun m sf => restoredFs m s.repoPath sf) s.fs }, none) := by
  induction files with
  | nil => intro s h; rfl
  | cons sf rest ih =>
    intro s h
    show (match unshelveFileInternal s sf with
      | (s1, some e) => (s1, some e)
      | (s1, none) => unshelveAllInternal s1 rest) = _
    rw [unshelveFileInternal_effect s sf ((h sf (by simp)).imp_right Or.inl)]
    dsimp only
    rw [ih _ fun x hx => h x (List.mem_cons_of_mem _ hx)]
    rfl

theorem fsGet_foldl_restored_frame (files : List ShelvedFile) (repo k : String) :
    ∀ fs : FsMap, (∀ sf ∈ files, absKey repo sf ≠ k) →
    fsGet (files.foldl (fun m sf => restoredFs m repo sf) fs) k = fsGet fs k := by
  induction files with
  | nil => intro fs _; rfl
  | cons sf rest ih =>
    intro fs h
    rw [List.foldl_cons, ih _ fun x hx => h x (List.mem_cons_of_mem _ hx),
      fsGet_restoredFs_other _ _ _ _ fun hk => h sf (by simp) hk.symm]

theorem fsGet_foldl_restored_value (files : List ShelvedFile) (repo : String) :
    ∀ (fs : FsMap) (sf : ShelvedFile), sf ∈ files →
    (files.map fun x => absKey repo x).Nodup →
    (∀ x ∈ files, x.status = .deleted ∨ x.originalContent.isSome) →
    fsGet (files.foldl (fun m x => restoredFs m repo x) fs) (absKey repo sf) =
      if sf.status = .deleted then none else sf.originalContent := by
  induction files with
  | nil => intro fs sf h; simp at h
  | cons y rest ih =>
    intro fs sf hmem hnd hkinds
    rw [List.foldl_cons]
    rcases List.mem_cons.mp hmem with rfl | hmem
    · rw [fsGet_foldl_restored_frame rest repo _ _ ?_,
        fsGet_restoredFs_self _ _ _ (hkinds sf (by simp))]
      intro x hx
      rw [List.map_cons] at hnd
      have h1 := (List.nodup_cons.mp hnd).1
      intro heq
      exact h1 (heq ▸ List.mem_map_of_mem (fun x => absKey repo x) hx)
    · refine ih _ sf hmem ?_ fun x hx => hkinds x (List.mem_cons_of_mem _ hx)
      rw [List.map_cons] at hnd
      exact (List.nodup_cons.mp hnd).2

theorem keys_nodup_of_paths_nodup (files : List ShelvedFile) (repo : String)
    (hrepo : ∀ sf ∈ files, jsOr sf.repoPath repo = repo)
    (hnd : (files.map fun f => normalizePath f.relativePath).Nodup) :
    (files.map fun f => absKey repo f).Nodup := by
  have hraw : (files.map fun f => f.relativePath).Nodup := by
    have : files.map (fun f => normalizePath f.relativePath) =
        (files.map fun f => f.relativePath).map normalizePath := by
      rw [List.map_map]
      rfl
    rw [this] at hnd
    exact hnd.of_map normalizePath
  have hmap : files.map (fun f => absKey repo f) =
      (files.map fun f => f.relativePath).map
        (fun r => getAbsolutePathFromRepo r repo) := by
    rw [List.map_map]
    refine List.map_congr_left fun sf hsf => ?_
    show absKey repo sf = getAbsolutePathFromRepo sf.relativePath repo
    unfold absKey
    rw [hrepo sf hsf]
  rw [hmap]
  refine hraw.map ?_
  intro a b hab
  exact getAbsolutePathFromRepo_inj hab

/-! ## Preservation of per-changelist snapshot path uniqueness -/

theorem pathUnique_of_updateFirst {l : List Changelist} {p : Changelist → Bool}
    {f : Changelist → Changelist}
    (hf : ∀ a ∈ l, pathUnique a → pathUnique (f a))
    (h : ∀ cl ∈ l, pathUnique cl) :
    ∀ cl ∈ updateFirst p f l, pathUnique cl := by
  intro cl hcl
  rcases mem_updateFirst hcl with hm | ⟨a, ha, _, rfl⟩
  · exact h cl hm
  · exact hf a ha (h a ha)

theorem pathUnique_replaceOrAppend (files : List ShelvedFile) (np : String)
    (snap : ShelvedFile) (hsnap : normalizePath snap.relativePath = np)
    (h : (files.map fun f => normalizePath f.relativePath).Nodup) :
    ((replaceOrAppend files np snap).map
      fun f => normalizePath f.relativePath).Nodup := by
  unfold replaceOrAppend
  split
  next hex =>
    obtain ⟨old, hold⟩ := Option.isSome_iff_exists.mp hex
    obtain ⟨l1, l2, rfl, hl1, hpa⟩ := find?_split hold
    rw [updateFirst_append _ old l2 hl1 hpa]
    rw [List.map_append, List.map_cons] at h ⊢
    have heq : normalizePath snap.relativePath = normalizePath old.relativePath := by
      rw [hsnap]
      exact (beq_iff_eq.mp hpa).symm
    rw [heq]
    exact h
  next hex =>
    have hnone : files.find?
        (fun f => normalizePath f.relativePath == np) = none := by
      rcases hfind : files.find? (fun f => normalizePath f.relativePath == np)
        with _ | v
      · exact hfind
      · rw [hfind] at hex
        simp at hex
    rw [List.map_append, List.map_cons, List.map_nil]
    rw [List.nodup_append]
    refine ⟨h, List.nodup_singleton _, ?_⟩
    intro a ha hb
    have hanp : a = np := by
      have : a = normalizePath snap.relativePath := by simpa using hb
      rw [this, hsnap]
    obtain ⟨f, hf, hfa⟩ := List.mem_map.mp ha
    have := List.find?_eq_none.mp hnone f hf
    rw [hfa, hanp] at this
    simp at this

theorem createChangelist_pathUnique (s : Svc) (label freshId : String)
    (h : statePathUnique s.state) :
    statePathUnique ((createChangelist s label freshId).1).state := by
  intro cl hcl
  rcases List.mem_append.mp hcl with hm | hm
  · exact h cl hm
  · have heq := List.mem_singleton.mp hm
    rw [heq]
    exact List.nodup_nil

theorem renameChangelist_pathUnique (s : Svc) (id newLabel : String)
    (h : statePathUnique s.state) :
    statePathUnique ((renameChangelist s id newLabel).1).state := by
  unfold renameChangelist
  split
  · exact h
  · exact pathUnique_of_updateFirst (fun a _ ha => ha) h

theorem setActiveChangelist_pathUnique (s : Svc) (id : String)
    (h : statePathUnique s.state) :
    statePathUnique ((setActiveChangelist s id).1).state := by
  unfold setActiveChangelist
  split
  · exact h
  · refine pathUnique_of_updateFirst (fun a _ ha => ha) ?_
    intro cl hcl
    obtain ⟨a, ha, rfl⟩ := List.mem_map.mp hcl
    exact h a ha

theorem shelveFile_pathUnique (s : Svc) (p cid : String) (now : Nat)
    (h : statePathUnique s.state) :
    statePathUnique ((shelveFile s p cid now).1).state := by
  unfold shelveFile
  dsimp only
  split
  · exact h
  next file hfile =>
    split
    · exact h
    next changelist hcl =>
      split
      · exact h
      · dsimp only
        intro cl hcl'
        rw [fireChangelists_state, saveState_state, saveSnapshotToFile_state]
          at hcl'
        dsimp only at hcl'
        refine pathUnique_of_updateFirst ?_ h cl hcl'
        intro a ha hpa
        show ((replaceOrAppend changelist.shelvedFiles (normalizePath p) _).map
          fun f => normalizePath f.relativePath).Nodup
        refine pathUnique_replaceOrAppend _ _ _ (normalizePath_idem p) ?_
        have hmem : changelist ∈ s.state.changelists := List.mem_of_find?_eq_some hcl
        exact h changelist hmem

theorem unshelveFile_pathUnique (s : Svc) (cid p : String)
    (h : statePathUnique s.state) :
    statePathUnique ((unshelveFile s cid p).1).state := by
  unfold statePathUnique
  rw [unshelveFile_state]
  exact h

theorem unshelveAll_pathUnique (s : Svc) (cid : String)
    (h : statePathUnique s.state) :
    statePathUnique ((unshelveAll s cid).1).state := by
  unfold statePathUnique
  rw [unshelveAll_state]
  exact h

theorem applyAndStage_pathUnique (s : Svc) (cid p : String)
    (h : statePathUnique s.state) :
    statePathUnique ((applyAndStage s cid p).1).state := by
  unfold statePathUnique
  rw [applyAndStage_state]
  exact h

theorem applyAllAndStage_pathUnique (s : Svc) (cid : String)
    (h : statePathUnique s.state) :
    statePathUnique ((applyAllAndStage s cid).1).state := by
  unfold statePathUnique
  rw [applyAllAndStage_state]
  exact h

theorem commitWorkingChanges_pathUnique (s : Svc) (m : String)
    (h : statePathUnique s.state) :
    statePathUnique ((commitWorkingChanges s m).1).state := by
  unfold statePathUnique
  rw [commitWorkingChanges_state]
  exact h

theorem revertFile_pathUnique (s : Svc) (p : String)
    (h : statePathUnique s.state) :
    statePathUnique ((revertFile s p).1).state := by
  unfold statePathUnique
  rw [revertFile_state]
  exact h

theorem refresh_pathUnique (s : Svc) (h : statePathUnique s.state) :
    statePathUnique (refresh s).state := by
  unfold statePathUnique
  rw [refresh_state]
  exact h

theorem deleteShelvedFile_pathUnique (s : Svc) (cid p : String)
    (h : statePathUnique s.state) :
    statePathUnique ((deleteShelvedFile s cid p).1).state := by
  unfold deleteShelvedFile
  split
  · exact h
  next changelist hcl =>
    dsimp only
    have hdel : ∀ sf, (deleteSnapshotFile s sf changelist).state = s.state := by
      intro sf
      unfold deleteSnapshotFile
      split <;> rfl
    have key : ∀ st : ChangelistState, st = s.state →
        statePathUnique
          { st with
            changelists :=
              updateFirst (fun cl => cl.id == cid)
                (fun cl =>
                  { cl with
                    shelvedFiles :=
                      cl.shelvedFiles.filter
                        (fun f => normalizePath f.relativePath !=
                          normalizePath p) }) st.changelists } := by
      intro st hst
      subst hst
      refine pathUnique_of_updateFirst ?_ h
      intro a ha hpa
      show ((a.shelvedFiles.filter _).map fun f => normalizePath f.relativePath).Nodup
      have hsub : ((a.shelvedFiles.filter
          (fun f => normalizePath f.relativePath != normalizePath p)).map
            fun f => normalizePath f.relativePath).Sublist
          (a.shelvedFiles.map fun f => normalizePath f.relativePath) :=
        (List.filter_sublist _).map _
      exact hpa.sublist hsub
    split
    next sf hsf => exact key _ (hdel sf)
    · exact key _ rfl

theorem deleteChangelist_pathUnique (s : Svc) (id : String)
    (h : statePathUnique s.state) :
    statePathUnique ((deleteChangelist s id).1).state := by
  unfold deleteChangelist
  split
  · exact h
  next changelist hcl =>
    split
    · exact h
    · split
      next s1 e heq =>
        have hfo := unshelveAllInternal_fsOnly changelist.shelvedFiles s
        rw [heq] at hfo
        unfold statePathUnique
        rw [fsOnly_state hfo]
        exact h
      next s1 heq =>
        have hfo := unshelveAllInternal_fsOnly changelist.shelvedFiles s
        rw [heq] at hfo
        have hs1 : s1.state = s.state := fsOnly_state hfo
        have hfiltered : ∀ cl ∈ s1.state.changelists.filter
            (fun c => c.id != id), pathUnique cl := by
          intro cl hcl'
          have := List.mem_of_mem_filter hcl'
          rw [hs1] at this
          exact h cl this
        dsimp only
        split
        · split
          · exact hfiltered
          next defaultCl hdef =>
            unfold statePathUnique
            rw [fireChangelists_state, refresh_state, saveState_state]
            dsimp only
            exact pathUnique_of_updateFirst (fun a _ ha => ha) hfiltered
        · unfold statePathUnique
          rw [fireChangelists_state, refresh_state, saveState_state]
          exact hfiltered

theorem commitChangelist_pathUnique (s : Svc) (cid m : String)
    (h : statePathUnique s.state) :
    statePathUnique ((commitChangelist s cid m).1).state := by
  unfold commitChangelist
  split
  · exact h
  next changelist hcl =>
    split
    · exact commitWorkingChanges_pathUnique s m h
    · split
      · exact h
      · dsimp only
        split
        next s1 e heq =>
          unfold statePathUnique
          rw [stashPushIf_state_of_eq heq]
          exact h
        next s1 heq =>
          have hs1 : s1.state = s.state := stashPushIf_state_of_eq heq
          split
          next s2 e heq2 =>
            have hfo2 := unshelveAllInternal_fsOnly changelist.shelvedFiles s1
            rw [heq2] at hfo2
            unfold statePathUnique
            rw [fsOnly_state hfo2, hs1]
            exact h
          next s2 heq2 =>
            have hfo2 := unshelveAllInternal_fsOnly changelist.shelvedFiles s1
            rw [heq2] at hfo2
            have hs2 : s2.state = s.state := (fsOnly_state hfo2).trans hs1
            split
            · unfold statePathUnique
              rw [hs2]
              exact h
            · split
              · unfold statePathUnique
                rw [hs2]
                exact h
              · have hcleared : ∀ cl ∈ updateFirst (fun cl => cl.id == cid)
                    (fun cl => { cl with shelvedFiles := [] })
                    s2.state.changelists, pathUnique cl := by
                  refine pathUnique_of_updateFirst ?_ ?_
                  · intro a ha hpa
                    exact List.nodup_nil
                  · intro cl hcl'
                    rw [hs2] at hcl'
                    exact h cl hcl'
                split
                next s4 e heq4 =>
                  unfold statePathUnique
                  rw [stashPopIf_state_of_eq heq4]
                  exact hcleared
                next s4 heq4 =>
                  unfold statePathUnique
                  rw [fireChangelists_state, refresh_state, saveState_state,
                    stashPopIf_state_of_eq heq4]
                  exact hcleared

theorem importLoop_pathUnique (items : List ExportItem) :
    ∀ (ids : List String) (s : Svc), statePathUnique s.state →
    (∀ item ∈ items,
      ((item.shelvedFiles.map fun f => normalizePath f.relativePath)).Nodup) →
    statePathUnique ((importLoop s items ids).1).state := by
  induction items with
  | nil => intro ids s h _; exact h
  | cons item rest ih =>
    intro ids s h hok
    unfold importLoop
    split
    · dsimp only
      refine ih _ _ ?_ fun x hx => hok x (List.mem_cons_of_mem _ hx)
      refine pathUnique_of_updateFirst ?_ ?_
      · intro a ha hpa
        exact hok item (by simp)
      · exact createChangelist_pathUnique s item.label _ h
    · exact ih _ _ h fun x hx => hok x (List.mem_cons_of_mem _ hx)

theorem importChangelists_pathUnique (s : Svc) (data : ChangelistExport)
    (freshIds : List String)
    (hok : ∀ item ∈ data.changelists,
      ((item.shelvedFiles.map fun f => normalizePath f.relativePath)).Nodup)
    (h : statePathUnique s.state) :
    statePathUnique ((importChangelists s data freshIds).1).state := by
  unfold importChangelists
  dsimp only
  unfold statePathUnique
  rw [fireChangelists_state, saveState_state]
  exact importLoop_pathUnique data.changelists freshIds s h hok

/-- The round-trip core shared by the capture claims: shelving a
currently-changed, non-deleted file whose working content is C and then
unshelving it from any later working tree writes exactly C back. -/
theorem shelve_captures_content (s : Svc) (p cid : String) (now : Nat)
    (file : ChangedFile) (cl : Changelist) (C : String) (g : FsMap)
    (hfile : lookupA s.changed (normalizePath p) = some file)
    (hdel : file.status ≠ .deleted)
    (hcontent : fsGet s.fs
      (getAbsolutePathFromRepo (normalizePath p) s.repoPath) = some C)
    (hcl : getChangelist s.state cid = some cl)
    (hdef : cl.isDefault = false) :
    (unshelveFile { (shelveFile s p cid now).1 with fs := g } cid p).2 = none ∧
    fsGet ((unshelveFile { (shelveFile s p cid now).1 with fs := g } cid p).1).fs
      (getAbsolutePathFromRepo (normalizePath p) s.repoPath) = some C := by
  obtain ⟨h2, hfs, hch, hrp, hgit, hget⟩ :=
    shelveFile_ok s p cid now file cl hfile hcl hdef
  have hsnapoc : (capturedSnapshot s file (normalizePath p) now).originalContent =
      some C := by
    show (if file.status = .deleted then none else fsGet s.fs _) = some C
    rw [if_neg hdel]
    exact hcontent
  have hgetg : getChangelist ({ (shelveFile s p cid now).1 with fs := g }).state cid =
      some { cl with
        shelvedFiles :=
          replaceOrAppend cl.shelvedFiles (normalizePath p)
            (capturedSnapshot s file (normalizePath p) now) } := hget
  have hfind : ({ cl with
      shelvedFiles :=
        replaceOrAppend cl.shelvedFiles (normalizePath p)
          (capturedSnapshot s file (normalizePath p) now) }).shelvedFiles.find?
      (fun f => normalizePath f.relativePath == normalizePath p) =
      some (capturedSnapshot s file (normalizePath p) now) := by
    show (replaceOrAppend _ _ _).find? _ = _
    refine replaceOrAppend_find? _ _ _ ?_
    show (normalizePath (normalizePath p) == normalizePath p) = true
    rw [normalizePath_idem]
    exact beq_self_eq_true _
  have hok := unshelveFile_ok _ cid p _ _ hgetg hfind
    (Or.inr (Or.inl (by rw [hsnapoc]; rfl)))
  refine ⟨hok.1, ?_⟩
  rw [hok.2]
  have hkey : absKey ({ (shelveFile s p cid now).1 with fs := g }).repoPath
      (capturedSnapshot s file (normalizePath p) now) =
      getAbsolutePathFromRepo (normalizePath p) s.repoPath := by
    have hr : ({ (shelveFile s p cid now).1 with fs := g }).repoPath = s.repoPath := hrp
    unfold absKey capturedSnapshot
    dsimp only
    rw [hr, jsOr_some_self]
  rw [← hkey, fsGet_restoredFs_self _ _ _ (Or.inr (by rw [hsnapoc]; rfl))]
  rw [if_neg ?_, hsnapoc]
  show ¬ file.status = .deleted
  exact hdel

theorem fireChangelists_repoPath (s : Svc) :
    (fireChangelists s).repoPath = s.repoPath := rfl

theorem unshelveFile_repoPath (s : Svc) (cid p : String) :
    ((unshelveFile s cid p).1).repoPath = s.repoPath := by
  unfold unshelveFile
  split
  · rfl
  next cl hcl =>
    dsimp only
    split
    · rfl
    next sf hfind =>
      split
      next s1 e heq =>
        have hfo := unshelveFileInternal_fsOnly s sf
        rw [heq] at hfo
        exact fsOnly_repoPath hfo
      next s1 heq =>
        have hfo := unshelveFileInternal_fsOnly s sf
        rw [heq] at hfo
        show (fireChangelists (refresh s1)).repoPath = s.repoPath
        rw [fireChangelists_repoPath, refresh_repoPath]
        exact fsOnly_repoPath hfo

theorem restoredFs_idem (fs : FsMap) (repo : String) (sf : ShelvedFile) :
    restoredFs (restoredFs fs repo sf) repo sf = restoredFs fs repo sf := by
  unfold restoredFs
  by_cases hd : sf.status = .deleted
  · rw [if_pos hd, if_pos hd, fsErase_fsErase]
  · rw [if_neg hd, if_neg hd]
    rcases sf.originalContent with _ | c
    · rfl
    · show fsSet (fsSet fs (absKey repo sf) c) (absKey repo sf) c =
        fsSet fs (absKey repo sf) c
      rw [fsSet_fsSet_same]

/-! ## The claims -/

/-- C1: shelveFile never touches the working tree (nor the changed-files
map): for every path and target changelist — resolvable or not — the
operation reads the file and mutates only the changelist state, the
persisted record, the notification counter and, when enabled, the
snapshot mirror map; the working-tree file at the path is byte-for-byte
unchanged. -/
theorem C1_shelve_preserves_working_tree (s : Svc) (p cid : String) (now : Nat) :
    ((shelveFile s p cid now).1).fs = s.fs ∧
    ((shelveFile s p cid now).1).changed = s.changed := by
  unfold shelveFile
  dsimp only
  split
  · exact ⟨rfl, rfl⟩
  · split
    · exact ⟨rfl, rfl⟩
    · split
      · exact ⟨rfl, rfl⟩
      · dsimp only
        constructor
        · show (saveSnapshotToFile _ _ _).fs = s.fs
          rw [saveSnapshotToFile_fs]
        · show (saveSnapshotToFile _ _ _).changed = s.changed
          rw [saveSnapshotToFile_changed]

/-- C2: shelving a currently-changed, non-deleted file with content C
into a resolvable non-default changelist and then unshelving it restores
exactly C to the working tree, whatever the working tree g was mutated
to in between: the content is captured at shelve time, not referenced. -/
theorem C2_shelve_unshelve_round_trip (s : Svc) (p cid : String) (now : Nat)
    (file : ChangedFile) (cl : Changelist) (C : String) (g : FsMap)
    (hfile : lookupA s.changed (normalizePath p) = some file)
    (hdel : file.status ≠ .deleted)
    (hcontent : fsGet s.fs
      (getAbsolutePathFromRepo (normalizePath p) s.repoPath) = some C)
    (hcl : getChangelist s.state cid = some cl)
    (hdef : cl.isDefault = false) :
    (unshelveFile { (shelveFile s p cid now).1 with fs := g } cid p).2 = none ∧
    fsGet ((unshelveFile { (shelveFile s p cid now).1 with fs := g } cid p).1).fs
      (getAbsolutePathFromRepo (normalizePath p) s.repoPath) = some C :=
  shelve_captures_content s p cid now file cl C g hfile hdel hcontent hcl hdef

/-- Witness for C2: shelving a.txt (content v1) into c1, mutating the
working tree to v2, then unshelving yields v1 again. -/
theorem C2_witness :
    (unshelveFile
      { (shelveFile svc0 "a.txt" "c1" 5).1 with fs := [("/r/a.txt", "v2")] }
      "c1" "a.txt").2 = none ∧
    fsGet ((unshelveFile
      { (shelveFile svc0 "a.txt" "c1" 5).1 with fs := [("/r/a.txt", "v2")] }
      "c1" "a.txt").1).fs
      (getAbsolutePathFromRepo (normalizePath "a.txt") svc0.repoPath) =
      some "v1" :=
  C2_shelve_unshelve_round_trip svc0 "a.txt" "c1" 5 file0 cl0 "v1"
    [("/r/a.txt", "v2")] (by decide) (by decide) (by decide) (by decide)
    (by decide)

/-- Counterexample to C3 as stated: the path-uniqueness invariant is not
preserved by every operation.  importChangelists reattaches the imported
snapshot arrays verbatim, so importing a payload whose single item holds
two snapshots for the path a.txt leaves a changelist with two snapshots
for one normalized path. -/
theorem C3_counterexample :
    ¬ statePathUnique ((importChangelists
      (initSvc "/r" "d0" [] gitEnv0 false) dupImport ["x1"]).1).state := by
  unfold statePathUnique pathUnique
  decide

/-- C3 (amended): within one changelist at most one snapshot exists per
normalized relative path, and every operation preserves this invariant
except importChangelists, which copies its payload verbatim and
preserves it exactly when each imported snapshot array is itself
path-unique.  Moreover shelveFile replaces a prior snapshot for the same
normalized path wholesale (last-write-wins): after two shelves of p into
c with different working contents, unshelveFile yields the content
captured by the second shelve only. -/
theorem C3_replace_on_recapture :
    ((∀ (s : Svc) (label freshId : String), statePathUnique s.state →
      statePathUnique ((createChangelist s label freshId).1).state) ∧
    (∀ (s : Svc) (id newLabel : String), statePathUnique s.state →
      statePathUnique ((renameChangelist s id newLabel).1).state) ∧
    (∀ (s : Svc) (id : String), statePathUnique s.state →
      statePathUnique ((deleteChangelist s id).1).state) ∧
    (∀ (s : Svc) (id : String), statePathUnique s.state →
      statePathUnique ((setActiveChangelist s id).1).state) ∧
    (∀ (s : Svc) (p cid : String) (now : Nat), statePathUnique s.state →
      statePathUnique ((shelveFile s p cid now).1).state) ∧
    (∀ (s : Svc) (cid p : String), statePathUnique s.state →
      statePathUnique ((unshelveFile s cid p).1).state) ∧
    (∀ (s : Svc) (cid : String), statePathUnique s.state →
      statePathUnique ((unshelveAll s cid).1).state) ∧
    (∀ (s : Svc) (cid p : String), statePathUnique s.state →
      statePathUnique ((applyAndStage s cid p).1).state) ∧
    (∀ (s : Svc) (cid : String), statePathUnique s.state →
      statePathUnique ((applyAllAndStage s cid).1).state) ∧
    (∀ (s : Svc) (cid p : String), statePathUnique s.state →
      statePathUnique ((deleteShelvedFile s cid p).1).state) ∧
    (∀ (s : Svc) (m : String), statePathUnique s.state →
      statePathUnique ((commitWorkingChanges s m).1).state) ∧
    (∀ (s : Svc) (cid m : String), statePathUnique s.state →
      statePathUnique ((commitChangelist s cid m).1).state) ∧
    (∀ (s : Svc) (p : String), statePathUnique s.state →
      statePathUnique ((revertFile s p).1).state) ∧
    (∀ s : Svc, statePathUnique s.state → statePathUnique (refresh s).state) ∧
    (∀ (s : Svc) (data : ChangelistExport) (freshIds : List String),
      statePathUnique s.state →
      (∀ item ∈ data.changelists,
        ((item.shelvedFiles.map fun f => normalizePath f.relativePath)).Nodup) →
      statePathUnique ((importChangelists s data freshIds).1).state)) ∧
    (∀ (s : Svc) (p cid : String) (now1 now2 : Nat) (file : ChangedFile)
        (cl : Changelist) (c2 : String) (g g2 : FsMap),
      lookupA s.changed (normalizePath p) = some file →
      file.status ≠ .deleted →
      getChangelist s.state cid = some cl →
      cl.isDefault = false →
      fsGet g (getAbsolutePathFromRepo (normalizePath p) s.repoPath) = some c2 →
      fsGet ((unshelveFile
        { (shelveFile { (shelveFile s p cid now1).1 with fs := g } p cid now2).1
          with fs := g2 } cid p).1).fs
        (getAbsolutePathFromRepo (normalizePath p) s.repoPath) = some c2) := by
  constructor
  · exact ⟨createChangelist_pathUnique, renameChangelist_pathUnique,
      deleteChangelist_pathUnique, setActiveChangelist_pathUnique,
      shelveFile_pathUnique, unshelveFile_pathUnique, unshelveAll_pathUnique,
      applyAndStage_pathUnique, applyAllAndStage_pathUnique,
      deleteShelvedFile_pathUnique, commitWorkingChanges_pathUnique,
      commitChangelist_pathUnique, revertFile_pathUnique, refresh_pathUnique,
      fun s data freshIds h hok =>
        importChangelists_pathUnique s data freshIds hok h⟩
  · intro s p cid now1 now2 file cl c2 g g2 hfile hdel hcl hdef hg
    obtain ⟨h2, hfs, hch, hrp, hgit, hget⟩ :=
      shelveFile_ok s p cid now1 file cl hfile hcl hdef
    have hfile1 : lookupA ({ (shelveFile s p cid now1).1 with fs := g }).changed
        (normalizePath p) = some file := by
      have hc : ({ (shelveFile s p cid now1).1 with fs := g }).changed =
          s.changed := hch
      rw [hc]
      exact hfile
    have hrp1 : ({ (shelveFile s p cid now1).1 with fs := g }).repoPath =
        s.repoPath := hrp
    have hcontent1 : fsGet ({ (shelveFile s p cid now1).1 with fs := g }).fs
        (getAbsolutePathFromRepo (normalizePath p)
          ({ (shelveFile s p cid now1).1 with fs := g }).repoPath) = some c2 := by
      rw [hrp1]
      exact hg
    have hdef1 : ({ cl with
        shelvedFiles :=
          replaceOrAppend cl.shelvedFiles (normalizePath p)
            (capturedSnapshot s file (normalizePath p) now1) }).isDefault =
        false := hdef
    have hmain := shelve_captures_content
      ({ (shelveFile s p cid now1).1 with fs := g }) p cid now2 file _ c2 g2
      hfile1 hdel hcontent1 hget hdef1
    have hkey := hmain.2
    rw [hrp1] at hkey
    exact hkey

/-- Witness for C3: shelving a.txt at v1, editing to v2, shelving again
into the same changelist, then unshelving yields v2, the content of the
second capture. -/
theorem C3_witness :
    fsGet ((unshelveFile
      { (shelveFile { (shelveFile svc0 "a.txt" "c1" 1).1
          with fs := [("/r/a.txt", "v2")] } "a.txt" "c1" 2).1
        with fs := [] } "c1" "a.txt").1).fs
      (getAbsolutePathFromRepo (normalizePath "a.txt") svc0.repoPath) =
      some "v2" :=
  C3_replace_on_recapture.2 svc0 "a.txt" "c1" 1 2 file0 cl0 "v2"
    [("/r/a.txt", "v2")] [] (by decide) (by decide) (by decide) (by decide)
    (by decide)

/-- Counterexample to C4 as stated: for a legacy snapshot carrying only
a stored patch, unshelveFile replays git apply, which is not idempotent;
with an additive patch the two successive restores leave different
working-tree content at the snapshot's path. -/
theorem C4_counterexample :
    fsGet ((unshelveFile (unshelveFile svcLegacy "c1" "a.txt").1
      "c1" "a.txt").1).fs "/r/a.txt" ≠
    fsGet ((unshelveFile svcLegacy "c1" "a.txt").1).fs "/r/a.txt" := by
  decide

/-- C4 (amended): for every changelist holding a snapshot for path p
that is not a legacy patch snapshot — its status is deleted, or it has
captured content, or it stores no patch — unshelveFile is idempotent on
the working tree and non-consuming on the state: both calls succeed, the
second call leaves the working tree exactly as the first did, and the
snapshot's changelist is unchanged (the snapshot still present) after
each call. -/
theorem C4_unshelve_idempotent (s : Svc) (cid p : String)
    (cl : Changelist) (sf : ShelvedFile)
    (hcl : getChangelist s.state cid = some cl)
    (hsf : cl.shelvedFiles.find?
      (fun f => normalizePath f.relativePath == normalizePath p) = some sf)
    (hnl : sf.status = .deleted ∨ sf.originalContent.isSome ∨ sf.patch = "") :
    (unshelveFile s cid p).2 = none ∧
    ((unshelveFile s cid p).1).fs = restoredFs s.fs s.repoPath sf ∧
    (unshelveFile (unshelveFile s cid p).1 cid p).2 = none ∧
    ((unshelveFile (unshelveFile s cid p).1 cid p).1).fs =
      ((unshelveFile s cid p).1).fs ∧
    getChangelist ((unshelveFile s cid p).1).state cid = some cl ∧
    getChangelist ((unshelveFile (unshelveFile s cid p).1 cid p).1).state cid =
      some cl := by
  obtain ⟨he1, hfs1⟩ := unshelveFile_ok s cid p cl sf hcl hsf hnl
  have hst1 : ((unshelveFile s cid p).1).state = s.state := unshelveFile_state s cid p
  have hcl1 : getChangelist ((unshelveFile s cid p).1).state cid = some cl := by
    rw [hst1]
    exact hcl
  obtain ⟨he2, hfs2⟩ := unshelveFile_ok ((unshelveFile s cid p).1) cid p cl sf
    hcl1 hsf hnl
  have hrp1 : ((unshelveFile s cid p).1).repoPath = s.repoPath :=
    unshelveFile_repoPath s cid p
  refine ⟨he1, hfs1, he2, ?_, hcl1, ?_⟩
  · rw [hfs2, hfs1, hrp1, restoredFs_idem]
  · rw [unshelveFile_state]
    exact hcl1

/-- Witness for C4: restoring the v1 snapshot of a.txt twice writes v1
both times and leaves the snapshot in place both times. -/
theorem C4_witness :
    (unshelveFile svcCommitFail "c1" "a.txt").2 = none ∧
    ((unshelveFile svcCommitFail "c1" "a.txt").1).fs =
      restoredFs svcCommitFail.fs svcCommitFail.repoPath snap1 ∧
    (unshelveFile (unshelveFile svcCommitFail "c1" "a.txt").1 "c1" "a.txt").2 =
      none ∧
    ((unshelveFile (unshelveFile svcCommitFail "c1" "a.txt").1 "c1" "a.txt").1).fs =
      ((unshelveFile svcCommitFail "c1" "a.txt").1).fs ∧
    getChangelist ((unshelveFile svcCommitFail "c1" "a.txt").1).state "c1" =
      some { cl0 with shelvedFiles := [snap1] } ∧
    getChangelist ((unshelveFile (unshelveFile svcCommitFail "c1" "a.txt").1
      "c1" "a.txt").1).state "c1" = some { cl0 with shelvedFiles := [snap1] } :=
  C4_unshelve_idempotent svcCommitFail "c1" "a.txt"
    { cl0 with shelvedFiles := [snap1] } snap1 (by decide) (by decide) (by decide)

/-- A member of a list with pairwise-distinct ids is what lookup by its
id finds. -/
theorem find?_id_of_mem_nodup {l : List Changelist} {d : Changelist}
    (hd : d ∈ l) (hnd : (l.map (·.id)).Nodup) :
    l.find? (fun c => c.id == d.id) = some d := by
  induction l with
  | nil => simp at hd
  | cons x xs ih =>
    rw [List.map_cons, List.nodup_cons] at hnd
    rcases List.mem_cons.mp hd with rfl | hd'
    · rw [List.find?_cons, beq_self_eq_true]
    · have hxid : x.id ≠ d.id := fun he =>
        hnd.1 (he ▸ List.mem_map_of_mem (·.id) hd')
      have hx : (x.id == d.id) = false := by simpa using hxid
      rw [List.find?_cons, hx]
      exact ih hd' hnd.2

/-- C5: in every state reachable from the freshly-initialized state by
registry and engine operations, exactly one changelist has isDefault set;
deleteChangelist on it throws the cannot-delete-default error leaving
the whole service unchanged, and shelveFile of any resolvable changed
path targeting it throws the cannot-save-to-default error leaving the
whole service unchanged. -/
theorem C5_exactly_one_default (repoPath freshId : String) (fs0 : FsMap)
    (git : GitEnv) (cfg : Bool) (s : Svc)
    (h : Reachable (initSvc repoPath freshId fs0 git cfg) s) :
    s.state.changelists.countP (·.isDefault) = 1 ∧
    ∀ d ∈ s.state.changelists, d.isDefault = true →
      deleteChangelist s d.id = (s, some .cannotDeleteDefault) ∧
      ∀ (p : String) (now : Nat),
        (lookupA s.changed (normalizePath p)).isSome →
        shelveFile s p d.id now = (s, some .cannotSaveToDefault) := by
  have hinv := reachable_inv (initSvc_inv repoPath freshId fs0 git cfg) h
  refine ⟨hinv.1, ?_⟩
  intro d hd hdef
  have hfind : getChangelist s.state d.id = some d :=
    find?_id_of_mem_nodup hd hinv.2.2
  constructor
  · unfold deleteChangelist
    rw [hfind]
    dsimp only
    rw [if_pos hdef]
  · intro p now hsome
    obtain ⟨file, hfile⟩ := Option.isSome_iff_exists.mp hsome
    unfold shelveFile
    dsimp only
    rw [hfile, hfind]
    dsimp only
    rw [if_pos hdef]

/-- Witness for C5: in the freshly-initialized service, deleting the
default changelist throws and leaves the service unchanged. -/
theorem C5_witness :
    deleteChangelist (initSvc "/r" "d0" [] gitEnv0 false) "d0" =
      (initSvc "/r" "d0" [] gitEnv0 false, some .cannotDeleteDefault) := by
  have h := (C5_exactly_one_default "/r" "d0" [] gitEnv0 false _ Reachable.refl).2
    { id := "d0", label := "Default Changelist", shelvedFiles := [],
      isDefault := true, isActive := true, repoPath := some "/r" }
    (by decide) (by decide)
  exact h.1

/-- C6: in every reachable state at most one changelist is active;
setActiveChangelist clears the flag everywhere and sets it exactly on
the requested id; and a successful deleteChangelist of the active
non-default changelist transfers activity to the default changelist,
setting both its flag and the recorded active id. -/
theorem C6_at_most_one_active (repoPath freshId : String) (fs0 : FsMap)
    (git : GitEnv) (cfg : Bool) (s : Svc)
    (h : Reachable (initSvc repoPath freshId fs0 git cfg) s) :
    s.state.changelists.countP (·.isActive) ≤ 1 ∧
    (∀ id cl, getChangelist s.state id = some cl →
      ∀ c ∈ ((setActiveChangelist s id).1).state.changelists,
        c.isActive = true ↔ c.id = id) ∧
    (∀ cl ∈ s.state.changelists, cl.isActive = true → cl.isDefault = false →
      (deleteChangelist s cl.id).2 = none →
      ∀ d ∈ ((deleteChangelist s cl.id).1).state.changelists,
        d.isDefault = true →
          d.isActive = true ∧
          ((deleteChangelist s cl.id).1).state.activeChangelistId = d.id) := by
  obtain ⟨hdef1, hact1, hnd⟩ :=
    reachable_inv (initSvc_inv repoPath freshId fs0 git cfg) h
  refine ⟨hact1, ?_, ?_⟩
  · intro id cl hcl c hc
    have hfind : s.state.changelists.find? (fun c => c.id == id) = some cl := hcl
    obtain ⟨l1, l2, hsplit, hl1, hpa⟩ := find?_split hfind
    have hclid : cl.id = id := by simpa using hpa
    have hndid : cl.id ∉ l1.map (·.id) ∧ cl.id ∉ l2.map (·.id) := by
      rw [hsplit, List.map_append, List.map_cons] at hnd
      obtain ⟨h1, h2, h3⟩ := List.nodup_append.mp hnd
      exact ⟨fun hmem => h3 hmem (List.mem_cons_self _ _),
        (List.nodup_cons.mp h2).1⟩
    have hres : ((setActiveChangelist s id).1).state.changelists =
        (l1.map fun b => { b with isActive := false }) ++
          ({ cl with isActive := true } ::
            (l2.map fun b => { b with isActive := false })) := by
      unfold setActiveChangelist
      rw [hcl]
      dsimp only
      rw [fireChangelists_state, saveState_state]
      dsimp only
      rw [hsplit, List.map_append, List.map_cons]
      rw [updateFirst_append _ _ _ ?hb ?hcond]
      case hb =>
        intro b hb
        obtain ⟨a, ha, rfl⟩ := List.mem_map.mp hb
        show (a.id == id) = false
        exact hl1 a ha
      case hcond =>
        show (cl.id == id) = true
        exact hpa
    rw [hres] at hc
    rcases List.mem_append.mp hc with hm | hm
    · obtain ⟨a, ha, rfl⟩ := List.mem_map.mp hm
      constructor
      · intro habs
        simp at habs
      · intro hid
        exfalso
        have haid : a.id = cl.id := hid.trans hclid.symm
        exact hndid.1 (haid ▸ List.mem_map_of_mem (·.id) ha)
    · rcases List.mem_cons.mp hm with rfl | hm'
      · constructor
        · intro _
          exact hclid
        · intro _
          rfl
      · obtain ⟨a, ha, rfl⟩ := List.mem_map.mp hm'
        constructor
        · intro habs
          simp at habs
        · intro hid
          exfalso
          have haid : a.id = cl.id := hid.trans hclid.symm
          exact hndid.2 (haid ▸ List.mem_map_of_mem (·.id) ha)
  · intro cl hcl hact hndef hsucc
    have hfind : getChangelist s.state cl.id = some cl :=
      find?_id_of_mem_nodup hcl hnd
    unfold deleteChangelist at hsucc ⊢
    rw [hfind] at hsucc ⊢
    dsimp only at hsucc ⊢
    rw [if_neg (by simp [hndef])] at hsucc ⊢
    rcases heq : unshelveAllInternal s cl.shelvedFiles with ⟨s1, e⟩
    rw [heq] at hsucc
    have hs1 : s1.state = s.state := by
      have hfo := unshelveAllInternal_fsOnly cl.shelvedFiles s
      rw [heq] at hfo
      exact fsOnly_state hfo
    cases e with
    | some e => simp at hsucc
    | none =>
      dsimp only at hsucc ⊢
      rw [if_pos hact] at hsucc ⊢
      rcases heqd : (List.filter (fun c => c.id != cl.id) s1.state.changelists).find?
          (·.isDefault) with _ | defaultCl
      · rw [heqd] at hsucc
        simp at hsucc
      · rw [heqd] at hsucc ⊢
        dsimp only at hsucc ⊢
        intro d hd hddef
        rw [fireChangelists_state, refresh_state, saveState_state] at hd
        dsimp only at hd
        rw [fireChangelists_state, refresh_state, saveState_state]
        dsimp only
        obtain ⟨f1, f2, hfsplit, hf1, hfa⟩ := find?_split heqd
        have hcount : (List.filter (fun c => c.id != cl.id)
            s1.state.changelists).countP (·.isDefault) = 1 := by
          rw [hs1]
          obtain ⟨l1, l2, hsplit', hfilter'⟩ := filter_ne_split hfind hnd
          rw [hfilter']
          rw [hsplit', List.countP_append, List.countP_cons] at hdef1
          rw [List.countP_append]
          simp [hndef] at hdef1
          omega
        have hfad : defaultCl.isDefault = true := hfa
        have hzero : f1.countP (·.isDefault) = 0 ∧
            f2.countP (·.isDefault) = 0 := by
          rw [hfsplit, List.countP_append, List.countP_cons] at hcount
          simp [hfad] at hcount
          omega
        rw [hfsplit, updateFirst_append _ _ _ hf1 hfa] at hd
        rcases List.mem_append.mp hd with hm | hm
        · exfalso
          have := List.countP_eq_zero.mp hzero.1 d hm
          simp [hddef] at this
        · rcases List.mem_cons.mp hm with rfl | hm'
          · exact ⟨rfl, rfl⟩
          · exfalso
            have := List.countP_eq_zero.mp hzero.2 d hm'
            simp [hddef] at this

/-- Witness for C6: from a fresh service, create changelist c1, make it
active, then delete it: the default changelist becomes active and the
recorded active id becomes the default's id. -/
theorem C6_witness :
    ({ id := "d0", label := "Default Changelist", shelvedFiles := [],
       isDefault := true, isActive := true,
       repoPath := some "/r" } : Changelist).isActive = true ∧
    ((deleteChangelist
      (setActiveChangelist
        ((createChangelist (initSvc "/r" "d0" [] gitEnv0 false)
          "Feature" "c1").1) "c1").1 "c1").1).state.activeChangelistId =
      ({ id := "d0", label := "Default Changelist", shelvedFiles := [],
         isDefault := true, isActive := true,
         repoPath := some "/r" } : Changelist).id := by
  have hreach : Reachable (initSvc "/r" "d0" [] gitEnv0 false)
      ((setActiveChangelist
        ((createChangelist (initSvc "/r" "d0" [] gitEnv0 false)
          "Feature" "c1").1) "c1").1) :=
    Reachable.step
      (Reachable.step Reachable.refl (Step.create _ "Feature" "c1" (by decide)))
      (Step.setActive _ "c1")
  exact (C6_at_most_one_active "/r" "d0" [] gitEnv0 false _ hreach).2.2
    { id := "c1", label := "Feature", shelvedFiles := [], isDefault := false,
      isActive := true, repoPath := some "/r" }
    (by decide) (by decide) (by decide) (by decide)
    { id := "d0", label := "Default Changelist", shelvedFiles := [],
      isDefault := true, isActive := true, repoPath := some "/r" }
    (by decide) (by decide)

/-- C7: deleting a non-default changelist holding M ≥ 1 snapshots (all
content or deletion snapshots of this repository, with pairwise distinct
normalized paths; the registry satisfying its id and single-default
invariants) succeeds, restores every snapshot to the working tree —
each path carrying its captured content, or absent for deletion-status
snapshots — and removes the record: no changelist with that id remains.
Restoration comes strictly first: whenever the restore loop throws
instead, deleteChangelist rethrows with the registry untouched. -/
theorem C7_delete_restores_then_removes (s : Svc) (cid : String)
    (cl : Changelist)
    (hcl : getChangelist s.state cid = some cl)
    (hdef : cl.isDefault = false)
    (hkinds : ∀ sf ∈ cl.shelvedFiles,
      sf.status = .deleted ∨ sf.originalContent.isSome)
    (hrepo : ∀ sf ∈ cl.shelvedFiles, jsOr sf.repoPath s.repoPath = s.repoPath)
    (huniq : (cl.shelvedFiles.map fun f => normalizePath f.relativePath).Nodup)
    (hnd : (s.state.changelists.map (·.id)).Nodup)
    (hone : s.state.changelists.countP (·.isDefault) = 1) :
    (deleteChangelist s cid).2 = none ∧
    (∀ sf ∈ cl.shelvedFiles,
      fsGet ((deleteChangelist s cid).1).fs
        (getAbsolutePathFromRepo sf.relativePath s.repoPath) =
        (if sf.status = .deleted then none else sf.originalContent)) ∧
    (∀ cl' ∈ ((deleteChangelist s cid).1).state.changelists, cl'.id ≠ cid) ∧
    (∀ (t : Svc) (tcl : Changelist) (e : Err),
      getChangelist t.state cid = some tcl → tcl.isDefault = false →
      unshelveAllInternal t tcl.shelvedFiles =
        ((unshelveAllInternal t tcl.shelvedFiles).1, some e) →
      deleteChangelist t cid =
        ((unshelveAllInternal t tcl.shelvedFiles).1, some e)) := by
  have hfsval : ∀ sf ∈ cl.shelvedFiles,
      fsGet (cl.shelvedFiles.foldl
        (fun m x => restoredFs m s.repoPath x) s.fs)
        (getAbsolutePathFromRepo sf.relativePath s.repoPath) =
        (if sf.status = .deleted then none else sf.originalContent) := by
    intro sf hsf
    have hkey : getAbsolutePathFromRepo sf.relativePath s.repoPath =
        absKey s.repoPath sf := by
      unfold absKey
      rw [hrepo sf hsf]
    rw [hkey]
    exact fsGet_foldl_restored_value cl.shelvedFiles s.repoPath s.fs sf hsf
      (keys_nodup_of_paths_nodup cl.shelvedFiles s.repoPath hrepo huniq) hkinds
  have hmemid : ∀ cl' ∈ s.state.changelists.filter (fun c => c.id != cid),
      cl'.id ≠ cid := by
    intro cl' hcl'
    have := (List.mem_filter.mp hcl').2
    simpa [bne] using this
  constructor
  · -- the run succeeds
    unfold deleteChangelist
    rw [hcl]
    dsimp only
    rw [if_neg (by simp [hdef])]
    rw [unshelveAllInternal_effect cl.shelvedFiles s hkinds]
    dsimp only
    by_cases hact : cl.isActive = true
    · rw [if_pos hact]
      have hsome : ∃ x ∈ s.state.changelists.filter (fun c => c.id != cid),
          x.isDefault = true := by
        obtain ⟨l1, l2, hsplit', hfilter'⟩ := filter_ne_split hcl hnd
        rw [hsplit', List.countP_append, List.countP_cons] at hone
        simp [hdef] at hone
        have hpos : 0 < (l1 ++ l2).countP (·.isDefault) := by
          rw [List.countP_append]
          omega
        obtain ⟨x, hx, hxd⟩ := List.countP_pos_iff.mp hpos
        exact ⟨x, by rw [hfilter']; exact hx, hxd⟩
      rcases hfd : (s.state.changelists.filter (fun c => c.id != cid)).find?
          (·.isDefault) with _ | d
      · exfalso
        obtain ⟨x, hx, hxd⟩ := hsome
        have := List.find?_eq_none.mp hfd x hx
        simp [hxd] at this
      · rw [hfd]
    · rw [if_neg hact]
  · refine ⟨?_, ?_, ?_⟩
    · -- restored contents
      intro sf hsf
      unfold deleteChangelist
      rw [hcl]
      dsimp only
      rw [if_neg (by simp [hdef])]
      rw [unshelveAllInternal_effect cl.shelvedFiles s hkinds]
      dsimp only
      by_cases hact : cl.isActive = true
      · rw [if_pos hact]
        rcases hfd : (s.state.changelists.filter (fun c => c.id != cid)).find?
            (·.isDefault) with _ | d
        · rw [hfd]
          dsimp only
          exact hfsval sf hsf
        · rw [hfd]
          dsimp only
          show fsGet (fireChangelists (refresh (saveState _))).fs _ = _
          rw [fireChangelists_fs, refresh_fs]
          exact hfsval sf hsf
      · rw [if_neg hact]
        dsimp only
        show fsGet (fireChangelists (refresh (saveState _))).fs _ = _
        rw [fireChangelists_fs, refresh_fs]
        exact hfsval sf hsf
    · -- the record is gone
      intro cl' hcl'
      rw [show ((deleteChangelist s cid).1).state.changelists = _ from rfl] at hcl'
      revert hcl'
      unfold deleteChangelist
      rw [hcl]
      dsimp only
      rw [if_neg (by simp [hdef])]
      rw [unshelveAllInternal_effect cl.shelvedFiles s hkinds]
      dsimp only
      by_cases hact : cl.isActive = true
      · rw [if_pos hact]
        rcases hfd : (s.state.changelists.filter (fun c => c.id != cid)).find?
            (·.isDefault) with _ | d
        · rw [hfd]
          dsimp only
          exact hmemid cl'
        · rw [hfd]
          dsimp only
          rw [fireChangelists_state, refresh_state, saveState_state]
          dsimp only
          intro hcl'
          rcases mem_updateFirst hcl' with hm | ⟨a, ha, _, rfl⟩
          · exact hmemid cl' hm
          · exact hmemid a ha
      · rw [if_neg hact]
        dsimp only
        rw [fireChangelists_state, refresh_state, saveState_state]
        exact hmemid cl'
    · -- a failing restore loop leaves the registry untouched
      intro t tcl e htcl htdef hloop
      unfold deleteChangelist
      rw [htcl]
      dsimp only
      rw [if_neg (by simp [htdef])]
      rw [hloop]

/-- Witness for C7: deleting c1, which holds the v1 snapshot of a.txt,
succeeds and leaves a.txt at v1 in the working tree. -/
theorem C7_witness :
    (deleteChangelist svcPopFail "c1").2 = none ∧
    fsGet ((deleteChangelist svcPopFail "c1").1).fs
      (getAbsolutePathFromRepo snap1.relativePath svcPopFail.repoPath) =
      (if snap1.status = .deleted then none else snap1.originalContent) := by
  have h := C7_delete_restores_then_removes svcPopFail "c1"
    { cl0 with shelvedFiles := [snap1] } (by decide) (by decide)
    (by decide) (by decide) (by decide) (by decide) (by decide)
  exact ⟨h.1, h.2.1 snap1 (by decide)⟩

/-- C8: state migration is idempotent and content-preserving.  Loading
an already-current record returns it unchanged; loading a
same-repository record at an older schema version (with no applicable
legacy record) upgrades it in place; the upgrade bumps only the schema
version, preserves the active id and every changelist's id, label,
flags, and full snapshot contents, leaves a truthy repoPath unchanged
and fills a missing one from the repository context; and upgrading an
already-upgraded record equals upgrading once. -/
theorem C8_migration (repoPath freshId : String) (wr : Option String)
    (stored : ChangelistState) :
    (stored.version = STATE_VERSION →
      loadState ⟨some stored, none, wr, freshId⟩ repoPath = stored) ∧
    (stored.version < STATE_VERSION →
      loadState ⟨some stored, none, wr, freshId⟩ repoPath =
        upgradeState repoPath stored) ∧
    (upgradeState repoPath stored).activeChangelistId =
      stored.activeChangelistId ∧
    (upgradeState repoPath stored).version = STATE_VERSION ∧
    (upgradeState repoPath stored).changelists.map
        (fun cl => (cl.id, cl.label, cl.isDefault, cl.isActive,
          cl.shelvedFiles.map fun sf =>
            (sf.relativePath, sf.status, sf.patch, sf.originalContent,
              sf.headContent, sf.shelvedAt, sf.originalPath))) =
      stored.changelists.map
        (fun cl => (cl.id, cl.label, cl.isDefault, cl.isActive,
          cl.shelvedFiles.map fun sf =>
            (sf.relativePath, sf.status, sf.patch, sf.originalContent,
              sf.headContent, sf.shelvedAt, sf.originalPath))) ∧
    (∀ cl ∈ stored.changelists, ∀ v : String, cl.repoPath = some v → v ≠ "" →
      some (jsOr cl.repoPath repoPath) = cl.repoPath) ∧
    (∀ cl ∈ stored.changelists, cl.repoPath = none →
      some (jsOr cl.repoPath repoPath) = some repoPath) ∧
    upgradeState repoPath (upgradeState repoPath stored) =
      upgradeState repoPath stored := by
  refine ⟨?_, ?_, rfl, rfl, ?_, ?_, ?_, ?_⟩
  · intro hv
    unfold loadState
    dsimp only
    rw [if_pos hv]
  · intro hv
    unfold loadState
    dsimp only
    rw [if_neg (by omega)]
    show (match (none : Option ChangelistState) with
      | some migrated => migrated
      | none =>
        if stored.version < STATE_VERSION then upgradeState repoPath stored
        else defaultState freshId repoPath) = _
    dsimp only
    rw [if_pos hv]
  · unfold upgradeState
    dsimp only
    rw [List.map_map]
    refine List.map_congr_left fun cl _ => ?_
    dsimp only [Function.comp]
    rw [List.map_map]
    exact congrArg (fun x => (cl.id, cl.label, cl.isDefault, cl.isActive, x))
      (List.map_congr_left fun sf _ => rfl)
  · intro cl _ v hv hvne
    rw [hv]
    show some (if v = "" then repoPath else v) = some v
    rw [if_neg hvne]
  · intro cl _ hv
    rw [hv]
    rfl
  · have hsf : ∀ sfs : List ShelvedFile,
        ((sfs.map fun sf =>
          { sf with repoPath := some (jsOr sf.repoPath repoPath) }).map
            fun sf => { sf with repoPath := some (jsOr sf.repoPath repoPath) }) =
        sfs.map fun sf =>
          { sf with repoPath := some (jsOr sf.repoPath repoPath) } := by
      intro sfs
      rw [List.map_map]
      refine List.map_congr_left fun sf _ => ?_
      dsimp only [Function.comp]
      rw [jsOr_jsOr]
    unfold upgradeState
    dsimp only
    refine congrArg
      (fun x => ChangelistState.mk x stored.activeChangelistId STATE_VERSION) ?_
    rw [List.map_map]
    refine List.map_congr_left fun cl _ => ?_
    dsimp only [Function.comp]
    rw [jsOr_jsOr, hsf]

/-- Witness for C8: loading the version-3 record upgrades it in place. -/
theorem C8_witness :
    loadState ⟨some oldState, none, none, "f0"⟩ "/r" =
      upgradeState "/r" oldState :=
  (C8_migration "/r" "f0" none oldState).2.1 (by decide)

/-- Generalization of the replace lemma: updating the first match leaves
it as what lookup finds, for any update that still matches. -/
theorem find?_updateFirst_self {α : Type} {p : α → Bool} {l : List α} {a : α}
    (f : α → α) (h : l.find? p = some a) (hf : p (f a) = true) :
    (updateFirst p f l).find? p = some (f a) := by
  obtain ⟨l1, l2, rfl, hl1, ha⟩ := find?_split h
  rw [updateFirst_append _ a l2 hl1 ha,
    find?_append_left_none _ hl1, List.find?_cons, hf]

/-- An update that fixes the first match is the identity. -/
theorem updateFirst_eq_of_f_id {α : Type} {p : α → Bool} {l : List α} {a : α}
    (f : α → α) (h : l.find? p = some a) (hfa : f a = a) :
    updateFirst p f l = l := by
  obtain ⟨l1, l2, rfl, hl1, ha⟩ := find?_split h
  rw [updateFirst_append _ a l2 hl1 ha, hfa]

/-- Counterexample to C9 as stated: when the stash pop of
commitChangelist fails, the error surfaced to the caller is the raw
underlying git failure, byte-identical to the error surfaced by an
ordinary commit failure — there is no distinguishable
unrecoverable-commit-state error kind in the code. -/
theorem C9_counterexample :
    (commitChangelist svcPopFail "c1" "m").2 = some (.gitFailure "boom") ∧
    (commitChangelist svcCommitFail "c1" "m").2 = some (.gitFailure "boom") ∧
    (commitChangelist svcPopFail "c1" "m").2 =
      (commitChangelist svcCommitFail "c1" "m").2 := by
  refine ⟨by decide, by decide, by decide⟩

/-- C9 (amended): when commitChangelist on a non-default, non-empty
changelist has pushed a stash and the stash pop fails with message msg,
the call surfaces exactly the underlying git failure carrying msg — the
same error kind as any ordinary subprocess failure — and the returned
state already has the changelist's snapshot set cleared in memory (the
fragile partial state the spec warns about). -/
theorem C9_stash_pop_error_passthrough (s : Svc) (cid message msg : String)
    (cl : Changelist)
    (hcl : getChangelist s.state cid = some cl)
    (hdef : cl.isDefault = false)
    (hne : cl.shelvedFiles.isEmpty = false)
    (hwc : 0 < s.changed.length)
    (hkinds : ∀ sf ∈ cl.shelvedFiles,
      sf.status = .deleted ∨ sf.originalContent.isSome)
    (hpush : ∀ fs, ∃ fs2, s.git.stashPush fs = .ok fs2)
    (hadd : ∀ ps fs, s.git.gitAdd ps fs = .ok ())
    (hcommit : ∀ m fs, s.git.gitCommit m fs = .ok ())
    (hpop : ∀ fs, s.git.stashPop fs = .error msg) :
    (commitChangelist s cid message).2 = some (.gitFailure msg) ∧
    getChangelist ((commitChangelist s cid message).1).state cid =
      some { cl with shelvedFiles := [] } := by
  have hwcb : decide (s.changed.length > 0) = true := decide_eq_true hwc
  obtain ⟨fs2, hp⟩ := hpush s.fs
  unfold commitChangelist
  rw [hcl]
  dsimp only
  rw [if_neg (by simp [hdef]), if_neg (by simp [hne]), hwcb]
  have hstep1 : stashPushIf s true = ({ s with fs := fs2 }, none) := by
    unfold stashPushIf
    rw [if_pos rfl, hp]
  rw [hstep1]
  dsimp only
  rw [unshelveAllInternal_effect cl.shelvedFiles { s with fs := fs2 } hkinds]
  dsimp only
  rw [hadd, hcommit]
  dsimp only
  have hfind : s.state.changelists.find? (fun c => c.id == cid) = some cl := hcl
  have hid := List.find?_some hfind
  have hclear : (updateFirst (fun c => c.id == cid)
      (fun cl => { cl with shelvedFiles := [] })
      s.state.changelists).find? (fun c => c.id == cid) =
      some { cl with shelvedFiles := [] } :=
    find?_updateFirst_self _ hfind hid
  have hstep5 : ∀ t : Svc, t.git = s.git →
      stashPopIf t true = (t, some (.gitFailure msg)) := by
    intro t ht
    unfold stashPopIf
    rw [if_pos rfl, ht, hpop]
  rw [hstep5]
  · exact ⟨rfl, hclear⟩
  · rfl

/-- Witness for C9: with one snapshot shelved, working changes present,
and a stash pop that fails with message boom, commitChangelist surfaces
exactly the git failure boom and the shelf is already cleared. -/
theorem C9_witness :
    (commitChangelist svcPopFail "c1" "m").2 =
      some (.gitFailure "boom") ∧
    getChangelist ((commitChangelist svcPopFail "c1" "m").1).state "c1" =
      some { { cl0 with shelvedFiles := [snap1] } with shelvedFiles := [] } :=
  C9_stash_pop_error_passthrough svcPopFail "c1" "m" "boom"
    { cl0 with shelvedFiles := [snap1] } (by decide) (by decide) (by decide)
    (by decide) (by decide) (fun fs => ⟨fs, rfl⟩) (fun ps fs => rfl)
    (fun m fs => rfl) (fun fs => rfl)

/-- C10: deleteShelvedFile on a resolvable changelist that holds no
snapshot for the given path succeeds without any error, leaves the whole
state — registry, working tree and mirror — unchanged, persists the
state, and fires the changelists-changed notification. -/
theorem C10_discard_missing_snapshot (s : Svc) (cid p : String)
    (cl : Changelist)
    (hcl : getChangelist s.state cid = some cl)
    (hno : cl.shelvedFiles.find?
      (fun f => normalizePath f.relativePath == normalizePath p) = none) :
    (deleteShelvedFile s cid p).2 = none ∧
    ((deleteShelvedFile s cid p).1).state = s.state ∧
    ((deleteShelvedFile s cid p).1).fs = s.fs ∧
    ((deleteShelvedFile s cid p).1).mirror = s.mirror ∧
    ((deleteShelvedFile s cid p).1).persisted = some s.state ∧
    ((deleteShelvedFile s cid p).1).clEvents = s.clEvents + 1 := by
  have hfind : s.state.changelists.find? (fun c => c.id == cid) = some cl := hcl
  have hfilter : cl.shelvedFiles.filter
      (fun f => normalizePath f.relativePath != normalizePath p) =
      cl.shelvedFiles := by
    refine List.filter_eq_self.mpr fun sf hsf => ?_
    have := List.find?_eq_none.mp hno sf hsf
    simpa [bne] using this
  have hupd : updateFirst (fun c => c.id == cid)
      (fun cl => { cl with
        shelvedFiles := cl.shelvedFiles.filter
          (fun f => normalizePath f.relativePath != normalizePath p) })
      s.state.changelists = s.state.changelists := by
    refine updateFirst_eq_of_f_id _ hfind ?_
    rw [hfilter]
  unfold deleteShelvedFile
  rw [hcl]
  dsimp only
  rw [hno]
  dsimp only
  rw [hupd]
  exact ⟨rfl, rfl, rfl, rfl, rfl, rfl⟩

/-- Witness for C10: discarding b.txt from c1, which holds only the
a.txt snapshot, succeeds, changes nothing, persists, and notifies. -/
theorem C10_witness :
    (deleteShelvedFile svcPopFail "c1" "b.txt").2 = none ∧
    ((deleteShelvedFile svcPopFail "c1" "b.txt").1).state = svcPopFail.state ∧
    ((deleteShelvedFile svcPopFail "c1" "b.txt").1).fs = svcPopFail.fs ∧
    ((deleteShelvedFile svcPopFail "c1" "b.txt").1).mirror = svcPopFail.mirror ∧
    ((deleteShelvedFile svcPopFail "c1" "b.txt").1).persisted =
      some svcPopFail.state ∧
    ((deleteShelvedFile svcPopFail "c1" "b.txt").1).clEvents =
      svcPopFail.clEvents + 1 :=
  C10_discard_missing_snapshot svcPopFail "c1" "b.txt"
    { cl0 with shelvedFiles := [snap1] } (by decide) (by decide)

end GitChangelists
